import Mathlib

set_option maxRecDepth 40000

/-!
Verification of the BSP test-fixture server (server.py): a shallow embedding
of its message framing, envelope decoding and method dispatch, together with
proofs of the framing and dispatch properties.

Conventions of the embedding:
* The text streams are modelled as lists of characters, as seen by the
  Python text-mode stdin and stdout (universal-newline translation is part
  of the read model, see readlineAux and tread).
* JSON values are modelled by JVal.  Numbers are modelled as integers:
  float syntax, NaN and Infinity are outside the scope of the verified
  claims, and the parser model rejects them.  Lone surrogate escapes,
  which cannot inhabit a Lean Char, are likewise rejected by the model.
* dumpChars models json.dumps with its defaults: ensure_ascii escaping and
  the default separators (comma-space and colon-space).
* loads models json.loads; objects are built with dict insertion
  semantics, so a duplicated key keeps its first position and last value.
-/

namespace BuildServer

/-- JSON values as produced by the json module.  Objects are association
lists in insertion order (Python dicts preserve insertion order). -/
inductive JVal where
  | null : JVal
  | bool : Bool → JVal
  | num : Int → JVal
  | str : String → JVal
  | arr : List JVal → JVal
  | obj : List (String × JVal) → JVal

/-- The open-brace character, 123. -/
def lbrace : Char := Char.ofNat 123

/-- The close-brace character, 125. -/
def rbrace : Char := Char.ofNat 125

/-- Carriage return, 13. -/
def crChar : Char := Char.ofNat 13

/-- Line feed, 10. -/
def lfChar : Char := Char.ofNat 10

/-- The decimal digit character for n < 10. -/
def digitChar (n : Nat) : Char := Char.ofNat (48 + n)

/-- Is c an ASCII decimal digit? -/
def isDigitB (c : Char) : Bool := 48 ≤ c.toNat && c.toNat ≤ 57

/-- Numeric value of an ASCII digit character. -/
def digitVal (c : Char) : Nat := c.toNat - 48

/-- Decimal digits of a natural number, most significant first. -/
def natToDigits (n : Nat) : List Char :=
  if _h : n < 10 then [digitChar n]
  else natToDigits (n / 10) ++ [digitChar (n % 10)]
termination_by n
decreasing_by exact Nat.div_lt_self (by omega) (by omega)

/-- Decimal rendering of an integer, as Python renders int values. -/
def intToChars (n : Int) : List Char :=
  if n < 0 then '-' :: natToDigits (-n).toNat else natToDigits n.toNat

/-- Lowercase hexadecimal digit character for n < 16. -/
def hexDigitChar (n : Nat) : Char :=
  if n < 10 then Char.ofNat (48 + n) else Char.ofNat (87 + n)

/-- Four lowercase hex digits of n < 65536, as the Python json escape
format string renders them. -/
def hex4 (n : Nat) : List Char :=
  [hexDigitChar (n / 4096 % 16), hexDigitChar (n / 256 % 16),
   hexDigitChar (n / 16 % 16), hexDigitChar (n % 16)]

/-- The escaping of one character performed by json.dumps with
ensure_ascii=True: the two-character escapes of its escape table, printable
ASCII kept verbatim, everything else as a u-escape, using a surrogate pair
for characters beyond the basic multilingual plane. -/
def escapeChar (c : Char) : List Char :=
  if c = '\"' then ['\\', '\"']
  else if c = '\\' then ['\\', '\\']
  else if c = Char.ofNat 8 then ['\\', 'b']
  else if c = Char.ofNat 9 then ['\\', 't']
  else if c = lfChar then ['\\', 'n']
  else if c = Char.ofNat 12 then ['\\', 'f']
  else if c = crChar then ['\\', 'r']
  else if 32 ≤ c.toNat ∧ c.toNat ≤ 126 then [c]
  else if c.toNat < 65536 then '\\' :: 'u' :: hex4 c.toNat
  else
    ('\\' :: 'u' :: hex4 (55296 + (c.toNat - 65536) / 1024)) ++
    ('\\' :: 'u' :: hex4 (56320 + (c.toNat - 65536) % 1024))

/-- Escape every character of a string body. -/
def escapeList : List Char → List Char
  | [] => []
  | c :: cs => escapeChar c ++ escapeList cs

mutual

/-- json.dumps with default arguments, producing the character list of the
serialized text: ensure_ascii escapes, separators comma-space and
colon-space, object members in insertion order. -/
def dumpChars : JVal → List Char
  | .null => "null".data
  | .bool true => "true".data
  | .bool false => "false".data
  | .num n => intToChars n
  | .str s => '\"' :: (escapeList s.data ++ ['\"'])
  | .arr [] => ['[', ']']
  | .arr (x :: xs) => '[' :: ((dumpChars x ++ dumpsElems xs) ++ [']'])
  | .obj [] => [lbrace, rbrace]
  | .obj (m :: ms) => lbrace :: ((dumpMember m ++ dumpsMembers ms) ++ [rbrace])

/-- The comma-space separated tail elements of a serialized array. -/
def dumpsElems : List JVal → List Char
  | [] => []
  | x :: xs => ',' :: ' ' :: (dumpChars x ++ dumpsElems xs)

/-- One serialized object member: quoted key, colon, space, value. -/
def dumpMember : String × JVal → List Char
  | (k, v) => '\"' :: (escapeList k.data ++ ('\"' :: ':' :: ' ' :: dumpChars v))

/-- The comma-space separated tail members of a serialized object. -/
def dumpsMembers : List (String × JVal) → List Char
  | [] => []
  | m :: ms => ',' :: ' ' :: (dumpMember m ++ dumpsMembers ms)

end

/-- The string form of json.dumps. -/
def dumps (v : JVal) : String := String.mk (dumpChars v)

/-- UTF-8 byte width of one character. -/
def utf8CharLen (c : Char) : Nat :=
  if c.toNat < 128 then 1
  else if c.toNat < 2048 then 2
  else if c.toNat < 65536 then 3
  else 4

/-- UTF-8 byte length of a character list. -/
def utf8Len : List Char → Nat
  | [] => 0
  | c :: cs => utf8CharLen c + utf8Len cs

/-! ## The json.loads model -/

/-- JSON inter-token whitespace: space, tab, line feed, carriage return. -/
def isJsonWs (c : Char) : Bool :=
  c = ' ' || c = Char.ofNat 9 || c = lfChar || c = crChar

/-- Drop leading JSON whitespace. -/
def skipWs : List Char → List Char
  | [] => []
  | c :: cs => if isJsonWs c then skipWs cs else c :: cs

/-- Value of a hexadecimal digit character, either case. -/
def hexVal (c : Char) : Option Nat :=
  if 48 ≤ c.toNat ∧ c.toNat ≤ 57 then some (c.toNat - 48)
  else if 97 ≤ c.toNat ∧ c.toNat ≤ 102 then some (c.toNat - 87)
  else if 65 ≤ c.toNat ∧ c.toNat ≤ 70 then some (c.toNat - 55)
  else none

/-- Parse exactly four hex digits. -/
def parseHex4 : List Char → Option (Nat × List Char)
  | a :: b :: c :: d :: rest =>
    match hexVal a, hexVal b, hexVal c, hexVal d with
    | some x, some y, some z, some w => some (4096 * x + 256 * y + 16 * z + w, rest)
    | _, _, _, _ => none
  | _ => none

/-- Consume a maximal run of decimal digits, folding them onto acc. -/
def munchDigits (acc : Nat) : List Char → Nat × List Char
  | [] => (acc, [])
  | c :: cs =>
    if isDigitB c then munchDigits (10 * acc + digitVal c) cs else (acc, c :: cs)

/-- Finish a scanned integer literal: a following dot or exponent marker
would make it a float, which the model does not cover. -/
def finishNum (neg : Bool) : Nat × List Char → Option (JVal × List Char)
  | (n, rest) =>
    match rest with
    | c :: _ =>
      if c = '.' || c = 'e' || c = 'E' then none
      else some (.num (if neg then -(n : Int) else (n : Int)), rest)
    | [] => some (.num (if neg then -(n : Int) else (n : Int)), [])

/-- Parse a JSON integer literal (the verified claims never involve floats,
and leading-zero rejection of the JSON grammar is not modelled; no claim
depends on either). -/
def parseNumberJ : List Char → Option (JVal × List Char)
  | [] => none
  | c :: cs =>
    if c = '-' then
      match cs with
      | [] => none
      | d :: _ => if isDigitB d then finishNum true (munchDigits 0 cs) else none
    else if isDigitB c then finishNum false (munchDigits 0 (c :: cs))
    else none

/-- The two-character escapes accepted inside a JSON string literal. -/
def escShort (e : Char) : Option Char :=
  if e = '\"' then some '\"'
  else if e = '\\' then some '\\'
  else if e = '/' then some '/'
  else if e = 'b' then some (Char.ofNat 8)
  else if e = 'f' then some (Char.ofNat 12)
  else if e = 'n' then some lfChar
  else if e = 'r' then some crChar
  else if e = 't' then some (Char.ofNat 9)
  else none

/-- Parse the body of a JSON string literal after the opening quote, up to
and including the closing quote.  Strict mode: raw control characters are
rejected.  A u-escape in the surrogate range must form a full surrogate
pair (a lone surrogate cannot inhabit a Lean Char and is rejected). -/
def parseStrBody : Nat → List Char → Option (List Char × List Char)
  | 0, _ => none
  | _ + 1, [] => none
  | fuel + 1, c :: cs =>
    if c = '\"' then some ([], cs)
    else if c = '\\' then
      match cs with
      | [] => none
      | e :: cs2 =>
        if e = 'u' then
          match parseHex4 cs2 with
          | none => none
          | some (n, cs3) =>
            if n < 55296 ∨ 57344 ≤ n then
              (parseStrBody fuel cs3).map (fun p => (Char.ofNat n :: p.1, p.2))
            else if n < 56320 then
              match cs3 with
              | b1 :: b2 :: cs4 =>
                if b1 = '\\' && b2 = 'u' then
                  match parseHex4 cs4 with
                  | some (m, cs5) =>
                    if 56320 ≤ m && m < 57344 then
                      (parseStrBody fuel cs5).map
                        (fun p =>
                          (Char.ofNat (65536 + (n - 55296) * 1024 + (m - 56320)) :: p.1,
                           p.2))
                    else none
                  | none => none
                else none
              | _ => none
            else none
        else
          match escShort e with
          | some d => (parseStrBody fuel cs2).map (fun p => (d :: p.1, p.2))
          | none => none
    else if c.toNat < 32 then none
    else (parseStrBody fuel cs).map (fun p => (c :: p.1, p.2))

/-- Python dict insertion: an existing key keeps its position and gets the
new value, a new key is appended. -/
def dictInsert (d : List (String × JVal)) (k : String) (v : JVal) :
    List (String × JVal) :=
  if d.any (fun p => p.1 = k) then d.map (fun p => if p.1 = k then (k, v) else p)
  else d ++ [(k, v)]

/-- Build a dict from parsed members in order, with Python dict semantics
for duplicated keys. -/
def dictFold (ps : List (String × JVal)) : List (String × JVal) :=
  ps.foldl (fun d p => dictInsert d p.1 p.2) []

mutual

/-- Parse one JSON value, fueled.  Mirrors the json.loads grammar on the
integer fragment (see parseNumberJ and parseStrBody for the documented
restrictions). -/
def parseVal : Nat → List Char → Option (JVal × List Char)
  | 0, _ => none
  | fuel + 1, s =>
    match skipWs s with
    | [] => none
    | c :: r =>
      if c = 'n' then
        match r with
        | 'u' :: 'l' :: 'l' :: r2 => some (.null, r2)
        | _ => none
      else if c = 't' then
        match r with
        | 'r' :: 'u' :: 'e' :: r2 => some (.bool true, r2)
        | _ => none
      else if c = 'f' then
        match r with
        | 'a' :: 'l' :: 's' :: 'e' :: r2 => some (.bool false, r2)
        | _ => none
      else if c = '\"' then
        (parseStrBody fuel r).map (fun p => (.str (String.mk p.1), p.2))
      else if c = '[' then
        match skipWs r with
        | [] => none
        | c2 :: r2 =>
          if c2 = ']' then some (.arr [], r2)
          else (parseElems fuel (skipWs r)).map (fun p => (.arr p.1, p.2))
      else if c = lbrace then
        match skipWs r with
        | [] => none
        | c2 :: r2 =>
          if c2 = rbrace then some (.obj [], r2)
          else (parseMembers fuel (skipWs r)).map (fun p => (.obj (dictFold p.1), p.2))
      else parseNumberJ (c :: r)

/-- Parse the elements of a non-empty array, from the first element up to
and including the closing bracket. -/
def parseElems : Nat → List Char → Option (List JVal × List Char)
  | 0, _ => none
  | fuel + 1, s =>
    match parseVal fuel s with
    | none => none
    | some (v, r) =>
      match skipWs r with
      | [] => none
      | c :: r2 =>
        if c = ',' then (parseElems fuel r2).map (fun p => (v :: p.1, p.2))
        else if c = ']' then some ([v], r2)
        else none

/-- Parse the members of a non-empty object, from the first key up to and
including the closing brace, in textual order (deduplication happens at
dict construction, see parseVal). -/
def parseMembers : Nat → List Char → Option (List (String × JVal) × List Char)
  | 0, _ => none
  | fuel + 1, s =>
    match skipWs s with
    | [] => none
    | c :: r =>
      if c = '\"' then
        match parseStrBody fuel r with
        | none => none
        | some (k, r1) =>
          match skipWs r1 with
          | [] => none
          | c2 :: r2 =>
            if c2 = ':' then
              match parseVal fuel r2 with
              | none => none
              | some (v, r3) =>
                match skipWs r3 with
                | [] => none
                | c3 :: r4 =>
                  if c3 = ',' then
                    (parseMembers fuel r4).map
                      (fun p => ((String.mk k, v) :: p.1, p.2))
                  else if c3 = rbrace then some ([(String.mk k, v)], r4)
                  else none
            else none
      else none

end

/-- json.loads: parse one document and require only whitespace after it. -/
def loads (s : List Char) : Option JVal :=
  match parseVal (s.length + 1) s with
  | some (v, r) => if skipWs r = [] then some v else none
  | none => none

/-! ## Well-formedness predicates used by the round-trip theorem -/

/-- No key occurs twice. -/
def nodupKeys : List String → Bool
  | [] => true
  | k :: ks => !(decide (k ∈ ks)) && nodupKeys ks

mutual

/-- Every object in the value has pairwise distinct keys.  Every value
json.loads can produce satisfies this (dicts have unique keys), hence so
does every response the server builds from decoded input. -/
def noDupJ : JVal → Bool
  | .null => true
  | .bool _ => true
  | .num _ => true
  | .str _ => true
  | .arr xs => noDupJList xs
  | .obj ms => nodupKeys (ms.map Prod.fst) && noDupJMembers ms

/-- noDupJ on every element. -/
def noDupJList : List JVal → Bool
  | [] => true
  | x :: xs => noDupJ x && noDupJList xs

/-- noDupJ on every member value. -/
def noDupJMembers : List (String × JVal) → Bool
  | [] => true
  | (_, v) :: ms => noDupJ v && noDupJMembers ms

end

mutual

/-- Fuel sufficient for parseVal to parse the serialization of v. -/
def needJ : JVal → Nat
  | .null => 1
  | .bool _ => 1
  | .num _ => 1
  | .str s => s.length + 2
  | .arr [] => 1
  | .arr (x :: xs) => 1 + needElems (x :: xs)
  | .obj [] => 1
  | .obj (m :: ms) => 1 + needMembers (m :: ms)

/-- Fuel sufficient for parseElems on serialized elements. -/
def needElems : List JVal → Nat
  | [] => 0
  | x :: xs => 1 + needJ x + needElems xs

/-- Fuel sufficient for parseMembers on serialized members. -/
def needMembers : List (String × JVal) → Nat
  | [] => 0
  | (k, v) :: ms => 1 + (k.length + 1) + needJ v + needMembers ms

end

/-! ## The text stream model

stdin is opened in text mode, so reads see characters after universal
newline translation: a CRLF pair or a lone CR is delivered as one LF. -/

/-- Accumulating worker for readline. -/
def readlineAux (acc : List Char) : List Char → List Char × List Char
  | [] => (acc.reverse, [])
  | c :: cs =>
    if c = lfChar then (acc.reverse ++ [lfChar], cs)
    else if c = crChar then
      match cs with
      | d :: cs2 =>
        if d = lfChar then (acc.reverse ++ [lfChar], cs2)
        else (acc.reverse ++ [lfChar], d :: cs2)
      | [] => (acc.reverse ++ [lfChar], [])
    else readlineAux (c :: acc) cs

/-- sys.stdin.readline on a text-mode stream: the line including its
translated terminator, and the rest of the stream.  At end of input the
line is empty. -/
def readline (input : List Char) : List Char × List Char := readlineAux [] input

/-- Read n characters from a text-mode stream (newline translation
included); at end of input, fewer are returned. -/
def tread : Nat → List Char → List Char × List Char
  | 0, cs => ([], cs)
  | _ + 1, [] => ([], [])
  | n + 1, c :: cs =>
    if c = crChar then
      match cs with
      | d :: cs2 =>
        if d = lfChar then
          let p := tread n cs2
          (lfChar :: p.1, p.2)
        else
          let p := tread n (d :: cs2)
          (lfChar :: p.1, p.2)
      | [] => ([lfChar], [])
    else
      let p := tread n cs
      (c :: p.1, p.2)

/-- Read the whole remaining text-mode stream, translating newlines. -/
def treadAll : List Char → List Char
  | [] => []
  | c :: cs =>
    if c = crChar then
      match cs with
      | d :: cs2 =>
        if d = lfChar then lfChar :: treadAll cs2 else lfChar :: treadAll (d :: cs2)
      | [] => [lfChar]
    else c :: treadAll cs

/-- sys.stdin.read(length) with a Python int argument: a negative count
reads the whole remaining stream. -/
def pyRead (n : Int) (cs : List Char) : List Char × List Char :=
  if n < 0 then (treadAll cs, []) else tread n.toNat cs

/-! ## The Python int constructor model -/

/-- ASCII whitespace stripped by the int constructor. -/
def isPySpace (c : Char) : Bool :=
  c = ' ' || c = Char.ofNat 9 || c = lfChar || c = crChar ||
  c = Char.ofNat 11 || c = Char.ofNat 12

/-- Strip leading and trailing whitespace. -/
def stripChars (cs : List Char) : List Char :=
  ((cs.dropWhile isPySpace).reverse.dropWhile isPySpace).reverse

/-- Digit run with optional single underscores between digits, folding the
value; the run must extend to the end of the input. -/
def pyGoDigits (acc : Nat) : List Char → Option Nat
  | [] => some acc
  | c :: cs =>
    if isDigitB c then pyGoDigits (10 * acc + digitVal c) cs
    else if c = '_' then
      match cs with
      | d :: ds => if isDigitB d then pyGoDigits (10 * acc + digitVal d) ds else none
      | [] => none
    else none

/-- An unsigned decimal integer literal as int accepts it. -/
def pyIntDigits : List Char → Option Nat
  | [] => none
  | c :: cs => if isDigitB c then pyGoDigits (digitVal c) cs else none

/-- The stripped input of int: an optional sign, then digits. -/
def pyIntSigned : List Char → Option Int
  | [] => none
  | c :: rest =>
    if c = '-' then (pyIntDigits rest).map (fun n => -(n : Int))
    else if c = '+' then (pyIntDigits rest).map (fun n => (n : Int))
    else (pyIntDigits (c :: rest)).map (fun n => (n : Int))

/-- Model of the Python int constructor on a string: strip whitespace, an
optional sign, then decimal digits (single underscores between digits
allowed).  Note that int accepts a negative value.  Non-ASCII digits and
Unicode whitespace are outside the scope of the claims and not modelled. -/
def pyInt (cs : List Char) : Option Int := pyIntSigned (stripChars cs)

/-! ## The fixture responses (server.py lines 16 to 89) -/

/-- The result payload of the build/initialize branch. -/
def initResult : JVal :=
  .obj [("displayName", .str "test server"),
        ("version", .str "0.1"),
        ("bspVersion", .str "2.0"),
        ("rootUri", .str "blah"),
        ("capabilities", .obj [("languageIds", .arr [.str "a", .str "b"])]),
        ("data", .obj [("indexStorePath", .str "some/index/store/path")])]

/-- The response dict built in the build/initialize branch. -/
def initResponse (i : JVal) : JVal :=
  .obj [("jsonrpc", .str "2.0"), ("id", i), ("result", initResult)]

/-- The response dict built in the build/shutdown branch. -/
def shutdownResponse (i : JVal) : JVal :=
  .obj [("jsonrpc", .str "2.0"), ("id", i), ("result", .null)]

/-- First item of the buildTarget/sources result. -/
def targetItemA : JVal :=
  .obj [("target", .obj [("uri", .str "build://target/a")]),
        ("sources", .arr
          [.obj [("uri", .str "file:///path/to/a/file"),
                 ("kind", .num 1), ("generated", .bool false)],
           .obj [("uri", .str "file:///path/to/a/folder/"),
                 ("kind", .num 2), ("generated", .bool false)]])]

/-- Second item of the buildTarget/sources result. -/
def targetItemB : JVal :=
  .obj [("target", .obj [("uri", .str "build://target/b")]),
        ("sources", .arr
          [.obj [("uri", .str "file:///path/to/b/file"),
                 ("kind", .num 1), ("generated", .bool false)],
           .obj [("uri", .str "file:///path/to/b/folder/"),
                 ("kind", .num 2), ("generated", .bool false)]])]

/-- The result payload of the buildTarget/sources branch. -/
def sourcesResult : JVal := .obj [("items", .arr [targetItemA, targetItemB])]

/-- The response dict built in the buildTarget/sources branch. -/
def sourcesResponse (i : JVal) : JVal :=
  .obj [("jsonrpc", .str "2.0"), ("id", i), ("result", sourcesResult)]

/-- The error response dict built in the unhandled-method branch; msg is
the already formatted method. -/
def errorResponse (i : JVal) (msg : String) : JVal :=
  .obj [("jsonrpc", .str "2.0"), ("id", i),
        ("error", .obj [("code", .num 123),
                        ("message", .str ("unhandled method " ++ msg))])]

/-- The single-quote character, 39. -/
def squote : Char := Char.ofNat 39

mutual

/-- Python str() of a json.loads value, as format interpolates it into the
unhandled-method message.  All claims exercise only the string case; for
containers this follows the Python repr shape (nested string escaping is
not modelled further, no claim depends on it). -/
def pyStr : JVal → String
  | .null => "None"
  | .bool true => "True"
  | .bool false => "False"
  | .num n => String.mk (intToChars n)
  | .str s => s
  | .arr xs => "[" ++ pyReprList xs ++ "]"
  | .obj ms => String.mk [lbrace] ++ pyReprMembers ms ++ String.mk [rbrace]

/-- Python repr of a nested value: strings are single-quoted. -/
def pyRepr : JVal → String
  | .null => "None"
  | .bool true => "True"
  | .bool false => "False"
  | .num n => String.mk (intToChars n)
  | .str s => String.mk [squote] ++ s ++ String.mk [squote]
  | .arr xs => "[" ++ pyReprList xs ++ "]"
  | .obj ms => String.mk [lbrace] ++ pyReprMembers ms ++ String.mk [rbrace]

/-- Comma-space separated reprs of list elements. -/
def pyReprList : List JVal → String
  | [] => ""
  | [x] => pyRepr x
  | x :: xs => pyRepr x ++ ", " ++ pyReprList xs

/-- Comma-space separated reprs of dict members. -/
def pyReprMembers : List (String × JVal) → String
  | [] => ""
  | [(k, v)] => String.mk [squote] ++ k ++ String.mk [squote] ++ ": " ++ pyRepr v
  | (k, v) :: ms =>
    String.mk [squote] ++ k ++ String.mk [squote] ++ ": " ++ pyRepr v ++ ", " ++
    pyReprMembers ms

end

/-! ## Dispatch (server.py lines 15 to 89) -/

/-- Python equality between a decoded value and a method-name string
literal: only equal strings compare equal. -/
def isMethodEq (m : JVal) (s : String) : Bool :=
  match m with
  | .str t => t = s
  | _ => false

/-- Dict lookup on a decoded message; None models a KeyError.  The same
lookup decides the membership test of the id-in-message check. -/
def dictGet (msg : List (String × JVal)) (k : String) : Option JVal :=
  match msg with
  | [] => none
  | (k2, v) :: rest => if k2 = k then some v else dictGet rest k

/-- Outcome of one dispatch of a decoded message dict. -/
inductive DispatchResult where
  | reply : JVal → DispatchResult
  | silent : DispatchResult
  | exitLoop : DispatchResult
  | fatal : DispatchResult

/-- The if/elif chain of server.py lines 15 to 89 on the decoded message
dict.  A missing method key, or a missing id key in a branch that reads
message id unconditionally, is an uncaught KeyError, i.e. fatal. -/
def dispatch (message : List (String × JVal)) : DispatchResult :=
  match dictGet message "method" with
  | none => .fatal
  | some m =>
    if isMethodEq m "build/initialize" then
      match dictGet message "id" with
      | none => .fatal
      | some i => .reply (initResponse i)
    else if isMethodEq m "build/initialized" then .silent
    else if isMethodEq m "build/shutdown" then
      match dictGet message "id" with
      | none => .fatal
      | some i => .reply (shutdownResponse i)
    else if isMethodEq m "build/exit" then .exitLoop
    else if isMethodEq m "buildTarget/sources" then
      match dictGet message "id" with
      | none => .fatal
      | some i => .reply (sourcesResponse i)
    else
      match dictGet message "id" with
      | none => .silent
      | some i => .reply (errorResponse i (pyStr m))

/-! ## Framing (server.py lines 5 to 13 and 91 to 95) -/

/-- The header the write path emits for a declared length n:
Content-Length, colon, space, the decimal count, CRLF, CRLF. -/
def mkHeader (n : Nat) : List Char :=
  "Content-Length: ".data ++ natToDigits n ++ [crChar, lfChar, crChar, lfChar]

/-- The frame written for a response value r: the declared count is
len(responseStr), the character length of the serialized text. -/
def wireFrame (r : JVal) : List Char :=
  mkHeader (dumpChars r).length ++ dumpChars r

/-- Outcome of reading one frame (server.py lines 5 to 13). -/
inductive ReadResult where
  | eof : ReadResult
  | fail : ReadResult
  | frame : JVal → List Char → ReadResult

/-- Is pre a prefix of l? -/
def listStartsWith : List Char → List Char → Bool
  | [], _ => true
  | _ :: _, [] => false
  | p :: ps, c :: cs => p = c && listStartsWith ps cs

/-- Read one frame: header line (empty line means clean end of stream; a
line not starting with the Content-Length tag fails the assert; the
remainder is fed to int), the discarded separator line, the body read of
the declared count, then json.loads.  fail models a fatal uncaught
exception. -/
def readFrame (input : List Char) : ReadResult :=
  let p := readline input
  if p.1.length = 0 then .eof
  else if !(listStartsWith "Content-Length:".data p.1) then .fail
  else
    match pyInt (p.1.drop 15) with
    | none => .fail
    | some len =>
      let q := readline p.2
      let r := pyRead len q.2
      match loads r.1 with
      | none => .fail
      | some v => .frame v r.2

/-- Result of one loop iteration: eof and exitLoop leave the loop, fatal
aborts the process, next carries the characters written (empty for a
silent iteration) and the unread input. -/
inductive StepResult where
  | eof : StepResult
  | fatal : StepResult
  | exitLoop : List Char → StepResult
  | next : List Char → List Char → StepResult

/-- One iteration of the while loop: read a frame, index the message dict
(a non-dict document makes the method access a fatal TypeError), dispatch,
and write the framed response if one was built. -/
def step (input : List Char) : StepResult :=
  match readFrame input with
  | .eof => .eof
  | .fail => .fatal
  | .frame v rest =>
    match v with
    | .obj fields =>
      match dispatch fields with
      | .fatal => .fatal
      | .silent => .next [] rest
      | .exitLoop => .exitLoop rest
      | .reply r => .next (wireFrame r) rest
    | _ => .fatal

/-- How a full run ended. -/
inductive Outcome where
  | finished : Outcome
  | fatalStop : Outcome
  | fuelOut : Outcome
deriving DecidableEq

/-- Observable result of running the loop: everything written to stdout,
the input left unread when the loop stopped, and how it stopped. -/
structure RunResult where
  out : List Char
  leftover : List Char
  outcome : Outcome
deriving DecidableEq

/-- The dispatch loop, fueled (each iteration consumes at least one input
character, so fuel = input length + 1 always suffices). -/
def run : Nat → List Char → RunResult
  | 0, input => ⟨[], input, .fuelOut⟩
  | fuel + 1, input =>
    match step input with
    | .eof => ⟨[], [], .finished⟩
    | .fatal => ⟨[], input, .fatalStop⟩
    | .exitLoop rest => ⟨[], rest, .finished⟩
    | .next out rest =>
      let r := run fuel rest
      ⟨out ++ r.out, r.leftover, r.outcome⟩

/-! ## Auxiliary character-class predicates used by the theorems -/

/-- The list contains no carriage return (a CR-free body is unchanged by
the universal-newline translation of the read side). -/
def noCR (cs : List Char) : Bool := cs.all (fun c => !(c = crChar))

/-- Every character is printable ASCII (codes 32 to 126). -/
def allPrintable (cs : List Char) : Bool :=
  cs.all (fun c => 32 ≤ c.toNat && c.toNat ≤ 126)

/-- Neither CR nor LF occurs. -/
def noCRLF (cs : List Char) : Bool := cs.all (fun c => !(c = crChar) && !(c = lfChar))

/-- What may legally follow a serialized value so that the integer scanner
stops exactly at the value boundary: nothing, or a character that is neither
a digit nor a dot nor an exponent marker. -/
def restOk : List Char → Prop
  | [] => True
  | c :: _ => isDigitB c = false ∧ c ≠ '.' ∧ c ≠ 'e' ∧ c ≠ 'E'

/-- The id of a response document, when it is an object. -/
def responseId : JVal → Option JVal
  | .obj fs => dictGet fs "id"
  | _ => none

/-- The sources list of one item of the buildTarget/sources result. -/
def sourcesOfItem : JVal → List JVal
  | .obj fs =>
    match dictGet fs "sources" with
    | some (.arr l) => l
    | _ => []
  | _ => []

/-- The kind field of a source entry. -/
def kindOf : JVal → Option JVal
  | .obj fs => dictGet fs "kind"
  | _ => none

/-- The generated field of a source entry. -/
def generatedOf : JVal → Option JVal
  | .obj fs => dictGet fs "generated"
  | _ => none

/-! ## Concrete wire inputs used by the witnesses and counterexamples -/

/-- A request with an unrecognized method. -/
def c1body : String := "\x7b\"jsonrpc\": \"2.0\", \"id\": 9, \"method\": \"foo/bar\"\x7d"

/-- The decoded dict of c1body. -/
def c1fields : List (String × JVal) :=
  [("jsonrpc", .str "2.0"), ("id", .num 9), ("method", .str "foo/bar")]

/-- A build/initialized envelope that carries an id. -/
def c3body : String :=
  "\x7b\"jsonrpc\": \"2.0\", \"id\": 5, \"method\": \"build/initialized\"\x7d"

/-- The full frame carrying c3body. -/
def c3input : String :=
  "Content-Length: 58\r\n\r\n\x7b\"jsonrpc\": \"2.0\", \"id\": 5, \"method\": \"build/initialized\"\x7d"

/-- The full frame carrying c4body. -/
def c4input : String :=
  "Content-Length: 48\r\n\r\n\x7b\"jsonrpc\": \"2.0\", \"method\": \"build/initialize\"\x7d"

/-- A build/shutdown request with id 7. -/
def c3wbody : String :=
  "\x7b\"jsonrpc\": \"2.0\", \"id\": 7, \"method\": \"build/shutdown\"\x7d"

/-- A build/initialize envelope without an id. -/
def c4body : String := "\x7b\"jsonrpc\": \"2.0\", \"method\": \"build/initialize\"\x7d"

/-- An unrecognized notification. -/
def c5body : String := "\x7b\"method\": \"x\"\x7d"

/-- A whole input stream whose header declares a negative Content-Length. -/
def c7input : String := "Content-Length:-1\r\n\r\n\x7b\"method\": \"x\"\x7d"

/-- A body containing a non-ASCII character: 10 characters, 11 UTF-8 bytes. -/
def c8body : String := "\x7b\"a\": \"é\"\x7d"

/-- A build/exit notification. -/
def c9body : String := "\x7b\"jsonrpc\": \"2.0\", \"method\": \"build/exit\"\x7d"

/-- A buildTarget/sources request with id 2, decoded. -/
def c10fields : List (String × JVal) :=
  [("jsonrpc", .str "2.0"), ("id", .num 2), ("method", .str "buildTarget/sources")]

/-! ## Character lemmas -/

theorem toNat_ofNat_valid (n : Nat) (h : n.isValidChar) : (Char.ofNat n).toNat = n := by
  unfold Char.ofNat
  rw [dif_pos h]
  unfold Char.ofNatAux Char.toNat
  simp [UInt32.toNat, BitVec.toNat_ofNatLt]

theorem toNat_ofNat_small (n : Nat) (h : n < 55296) : (Char.ofNat n).toNat = n :=
  toNat_ofNat_valid n (Or.inl h)

theorem char_ne_of_toNat_ne (c d : Char) (h : c.toNat ≠ d.toNat) : c ≠ d :=
  fun he => h (by rw [he])

theorem digitChar_toNat (d : Nat) (h : d < 10) : (digitChar d).toNat = 48 + d := by
  unfold digitChar; exact toNat_ofNat_small _ (by omega)

theorem isDigitB_digitChar (d : Nat) (h : d < 10) : isDigitB (digitChar d) = true := by
  simp [isDigitB, digitChar_toNat d h]
  omega

theorem digitVal_digitChar (d : Nat) (h : d < 10) : digitVal (digitChar d) = d := by
  simp [digitVal, digitChar_toNat d h]

theorem toNat_bounds_of_digit (c : Char) (h : isDigitB c = true) :
    48 ≤ c.toNat ∧ c.toNat ≤ 57 := by
  simpa [isDigitB] using h

theorem isPySpace_false_of_toNat (c : Char) (h : 33 ≤ c.toNat) : isPySpace c = false := by
  simp only [isPySpace, Bool.or_eq_false_iff, decide_eq_false_iff_not]
  refine ⟨⟨⟨⟨⟨?_, ?_⟩, ?_⟩, ?_⟩, ?_⟩, ?_⟩ <;>
    (intro he; subst he; exact absurd h (by decide))

theorem isJsonWs_false_of_toNat (c : Char) (h : 33 ≤ c.toNat) : isJsonWs c = false := by
  simp only [isJsonWs, Bool.or_eq_false_iff, decide_eq_false_iff_not]
  refine ⟨⟨⟨?_, ?_⟩, ?_⟩, ?_⟩ <;>
    (intro he; subst he; exact absurd h (by decide))

theorem isPySpace_digit (c : Char) (h : isDigitB c = true) : isPySpace c = false :=
  isPySpace_false_of_toNat c (by have := toNat_bounds_of_digit c h; omega)

theorem isJsonWs_digit (c : Char) (h : isDigitB c = true) : isJsonWs c = false :=
  isJsonWs_false_of_toNat c (by have := toNat_bounds_of_digit c h; omega)

/-! ## Decimal digit string lemmas -/

theorem natToDigits_lt (n : Nat) (h : n < 10) : natToDigits n = [digitChar n] := by
  rw [natToDigits]; simp [h]

theorem natToDigits_ge (n : Nat) (h : ¬ n < 10) :
    natToDigits n = natToDigits (n / 10) ++ [digitChar (n % 10)] := by
  rw [natToDigits]; simp [h]

theorem natToDigits_digits (n : Nat) : ∀ c ∈ natToDigits n, isDigitB c = true := by
  induction n using Nat.strong_induction_on with
  | _ n ih =>
    by_cases h : n < 10
    · rw [natToDigits_lt n h]
      intro c hc
      simp only [List.mem_singleton] at hc
      subst hc
      exact isDigitB_digitChar n h
    · rw [natToDigits_ge n h]
      intro c hc
      rcases List.mem_append.mp hc with h1 | h1
      · exact ih (n / 10) (Nat.div_lt_self (by omega) (by omega)) c h1
      · simp only [List.mem_singleton] at h1
        subst h1
        exact isDigitB_digitChar _ (Nat.mod_lt _ (by omega))

theorem natToDigits_ne_nil (n : Nat) : natToDigits n ≠ [] := by
  by_cases h : n < 10
  · rw [natToDigits_lt n h]; simp
  · rw [natToDigits_ge n h]; simp

theorem natToDigits_cons (n : Nat) :
    ∃ c cs, natToDigits n = c :: cs ∧ isDigitB c = true ∧
      ∀ x ∈ cs, isDigitB x = true := by
  cases hnd : natToDigits n with
  | nil => exact absurd hnd (natToDigits_ne_nil n)
  | cons c cs =>
    refine ⟨c, cs, rfl, ?_, ?_⟩
    · exact natToDigits_digits n c (by rw [hnd]; simp)
    · intro x hx
      exact natToDigits_digits n x (by rw [hnd]; simp [hx])

theorem munchDigits_cons_digit (acc : Nat) (c : Char) (cs : List Char)
    (h : isDigitB c = true) :
    munchDigits acc (c :: cs) = munchDigits (10 * acc + digitVal c) cs := by
  simp [munchDigits, h]

theorem munchDigits_append (n : Nat) : ∀ acc rest,
    munchDigits acc (natToDigits n ++ rest)
      = munchDigits (acc * 10 ^ (natToDigits n).length + n) rest := by
  induction n using Nat.strong_induction_on with
  | _ n ih =>
    intro acc rest
    by_cases h : n < 10
    · rw [natToDigits_lt n h]
      rw [List.singleton_append, munchDigits_cons_digit acc _ rest (isDigitB_digitChar n h),
        digitVal_digitChar n h]
      norm_num
      congr 1
      omega
    · rw [natToDigits_ge n h, List.append_assoc,
        ih (n / 10) (Nat.div_lt_self (by omega) (by omega)) acc _,
        List.singleton_append,
        munchDigits_cons_digit _ _ rest (isDigitB_digitChar _ (Nat.mod_lt _ (by omega))),
        digitVal_digitChar _ (Nat.mod_lt _ (by omega))]
      have hl : (natToDigits (n / 10) ++ [digitChar (n % 10)]).length
          = (natToDigits (n / 10)).length + 1 := by simp
      rw [hl, pow_succ, ← mul_assoc]
      congr 1
      generalize acc * 10 ^ (natToDigits (n / 10)).length = B
      omega

theorem munchDigits_full (n : Nat) : munchDigits 0 (natToDigits n) = (n, []) := by
  have h := munchDigits_append n 0 []
  rw [List.append_nil] at h
  simpa [munchDigits] using h

theorem munchDigits_stop (n : Nat) (c : Char) (cs : List Char) (h : isDigitB c = false) :
    munchDigits 0 (natToDigits n ++ c :: cs) = (n, c :: cs) := by
  rw [munchDigits_append]
  simp [munchDigits, h]

theorem pyGoDigits_cons_digit (acc : Nat) (c : Char) (cs : List Char)
    (h : isDigitB c = true) :
    pyGoDigits acc (c :: cs) = pyGoDigits (10 * acc + digitVal c) cs := by
  rw [pyGoDigits.eq_def]
  simp [h]

theorem pyGoDigits_append (n : Nat) : ∀ acc rest,
    pyGoDigits acc (natToDigits n ++ rest)
      = pyGoDigits (acc * 10 ^ (natToDigits n).length + n) rest := by
  induction n using Nat.strong_induction_on with
  | _ n ih =>
    intro acc rest
    by_cases h : n < 10
    · rw [natToDigits_lt n h]
      rw [List.singleton_append, pyGoDigits_cons_digit acc _ rest (isDigitB_digitChar n h),
        digitVal_digitChar n h]
      norm_num
      congr 1
      omega
    · rw [natToDigits_ge n h, List.append_assoc,
        ih (n / 10) (Nat.div_lt_self (by omega) (by omega)) acc _,
        List.singleton_append,
        pyGoDigits_cons_digit _ _ rest (isDigitB_digitChar _ (Nat.mod_lt _ (by omega))),
        digitVal_digitChar _ (Nat.mod_lt _ (by omega))]
      have hl : (natToDigits (n / 10) ++ [digitChar (n % 10)]).length
          = (natToDigits (n / 10)).length + 1 := by simp
      rw [hl, pow_succ, ← mul_assoc]
      congr 1
      generalize acc * 10 ^ (natToDigits (n / 10)).length = B
      omega

theorem pyIntDigits_natToDigits (n : Nat) : pyIntDigits (natToDigits n) = some n := by
  obtain ⟨c, cs, hcons, hdig, _⟩ := natToDigits_cons n
  have h0 : pyGoDigits 0 (c :: cs) = pyGoDigits (digitVal c) cs := by
    simpa using pyGoDigits_cons_digit 0 c cs hdig
  have hfull : pyGoDigits 0 (natToDigits n) = some n := by
    have h := pyGoDigits_append n 0 []
    rw [List.append_nil] at h
    simpa [pyGoDigits] using h
  rw [hcons] at hfull
  rw [h0] at hfull
  rw [hcons]
  simp [pyIntDigits, hdig, hfull]

theorem stripChars_header (ds : List Char) (hne : ds ≠ [])
    (hall : ∀ c ∈ ds, isDigitB c = true) :
    stripChars (' ' :: (ds ++ [lfChar])) = ds := by
  unfold stripChars
  cases ds with
  | nil => exact absurd rfl hne
  | cons c cs =>
    have hc : isPySpace c = false := isPySpace_digit c (hall c (by simp))
    rw [List.dropWhile_cons]
    simp only [show isPySpace ' ' = true from rfl, if_true]
    rw [List.cons_append, List.dropWhile_cons, hc]
    simp only [Bool.false_eq_true, if_false]
    rw [show (c :: (cs ++ [lfChar])) = (c :: cs) ++ [lfChar] from rfl,
      List.reverse_append]
    simp only [List.reverse_singleton, List.singleton_append]
    rw [List.dropWhile_cons]
    simp only [show isPySpace lfChar = true from rfl, if_true]
    have hrev : (c :: cs).reverse.dropWhile isPySpace = (c :: cs).reverse := by
      cases hr : (c :: cs).reverse with
      | nil => simp
      | cons d ds2 =>
        have hd : d ∈ (c :: cs) := by
          rw [← List.mem_reverse, hr]; simp
        rw [List.dropWhile_cons, isPySpace_digit d (hall d hd)]
        simp
    rw [hrev, List.reverse_reverse]

theorem pyInt_natToDigits (n : Nat) :
    pyInt (' ' :: (natToDigits n ++ [lfChar])) = some (n : Int) := by
  unfold pyInt
  rw [stripChars_header _ (natToDigits_ne_nil n) (natToDigits_digits n)]
  obtain ⟨c, cs, hcons, hdig, _⟩ := natToDigits_cons n
  have hb := toNat_bounds_of_digit c hdig
  rw [hcons]
  have h1 : c ≠ '-' := char_ne_of_toNat_ne c '-'
    (by simp only [show ('-').toNat = 45 from rfl]; omega)
  have h2 : c ≠ '+' := char_ne_of_toNat_ne c '+'
    (by simp only [show ('+').toNat = 43 from rfl]; omega)
  simp only [pyIntSigned, if_neg h1, if_neg h2]
  rw [← hcons, pyIntDigits_natToDigits]
  rfl

/-! ## Stream lemmas -/

theorem noCRLF_of_digits (ds : List Char) (h : ∀ c ∈ ds, isDigitB c = true) :
    noCRLF ds = true := by
  simp only [noCRLF, List.all_eq_true, Bool.and_eq_true, Bool.not_eq_eq_eq_not,
    Bool.not_true, decide_eq_false_iff_not]
  intro c hc
  have hb := toNat_bounds_of_digit c (h c hc)
  exact ⟨char_ne_of_toNat_ne c crChar
      (by simp only [show crChar.toNat = 13 from rfl]; omega),
    char_ne_of_toNat_ne c lfChar
      (by simp only [show lfChar.toNat = 10 from rfl]; omega)⟩

theorem noCRLF_append (a b : List Char) (ha : noCRLF a = true) (hb : noCRLF b = true) :
    noCRLF (a ++ b) = true := by
  simp only [noCRLF, List.all_append, Bool.and_eq_true]
  exact ⟨ha, hb⟩

theorem readlineAux_cons_other (acc : List Char) (c : Char) (cs : List Char)
    (h1 : c ≠ lfChar) (h2 : c ≠ crChar) :
    readlineAux acc (c :: cs) = readlineAux (c :: acc) cs := by
  rw [readlineAux.eq_def]
  simp [h1, h2]

theorem readlineAux_crlf (acc rest : List Char) :
    readlineAux acc (crChar :: lfChar :: rest) = (acc.reverse ++ [lfChar], rest) := by
  rw [readlineAux.eq_def]
  simp
  decide

theorem readlineAux_append (ds : List Char) (h : noCRLF ds = true) : ∀ acc rest,
    readlineAux acc (ds ++ crChar :: lfChar :: rest)
      = ((acc.reverse ++ ds) ++ [lfChar], rest) := by
  induction ds with
  | nil =>
    intro acc rest
    simp only [List.nil_append, List.append_nil]
    exact readlineAux_crlf acc rest
  | cons c cs ih =>
    intro acc rest
    simp only [noCRLF, List.all_cons, Bool.and_eq_true, Bool.not_eq_eq_eq_not,
      Bool.not_true, decide_eq_false_iff_not] at h
    rw [List.cons_append,
      readlineAux_cons_other acc c _ h.1.2 h.1.1,
      ih (by simpa [noCRLF] using h.2) (c :: acc) rest]
    simp

theorem readline_of_header (ds : List Char) (h : noCRLF ds = true) (rest : List Char) :
    readline (ds ++ crChar :: lfChar :: rest) = (ds ++ [lfChar], rest) := by
  unfold readline
  rw [readlineAux_append ds h [] rest]
  simp

theorem tread_append (body : List Char) (h : noCR body = true) (rest : List Char) :
    tread body.length (body ++ rest) = (body, rest) := by
  induction body with
  | nil => rfl
  | cons c cs ih =>
    simp only [noCR, List.all_cons, Bool.and_eq_true, Bool.not_eq_eq_eq_not,
      Bool.not_true, decide_eq_false_iff_not] at h
    rw [List.cons_append, List.length_cons, tread.eq_def]
    simp only [if_neg h.1]
    rw [ih (by simpa [noCR] using h.2)]

theorem skipWs_cons_false (c : Char) (cs : List Char) (h : isJsonWs c = false) :
    skipWs (c :: cs) = c :: cs := by
  simp [skipWs, h]

theorem skipWs_cons_true (c : Char) (cs : List Char) (h : isJsonWs c = true) :
    skipWs (c :: cs) = skipWs cs := by
  simp [skipWs, h]

theorem listStartsWith_append (p t : List Char) : listStartsWith p (p ++ t) = true := by
  induction p with
  | nil => rfl
  | cons c cs ih => simp [listStartsWith, ih]

/-! ## The master framing lemma: reading one well-formed frame -/

theorem header_split (z : List Char) :
    "Content-Length: ".data ++ z = "Content-Length:".data ++ (' ' :: z) := rfl

theorem header_drop (z : List Char) :
    ("Content-Length: ".data ++ z).drop 15 = ' ' :: z := rfl

theorem noCRLF_headerTag : noCRLF "Content-Length: ".data = true := by decide

theorem readline_crlf (rest : List Char) :
    readline (crChar :: lfChar :: rest) = ([lfChar], rest) := by
  unfold readline
  rw [readlineAux_crlf]
  simp

theorem readFrame_mkFrame (n : Nat) (body rest : List Char)
    (hcr : noCR body = true) (hlen : body.length = n) :
    readFrame (mkHeader n ++ (body ++ rest))
      = match loads body with
        | none => .fail
        | some v => .frame v rest := by
  subst hlen
  have hds : noCRLF ("Content-Length: ".data ++ natToDigits body.length) = true :=
    noCRLF_append _ _ noCRLF_headerTag
      (noCRLF_of_digits _ (natToDigits_digits body.length))
  have hin : mkHeader body.length ++ (body ++ rest)
      = ("Content-Length: ".data ++ natToDigits body.length)
        ++ crChar :: lfChar :: (crChar :: lfChar :: (body ++ rest)) := by
    unfold mkHeader
    simp
  have hrl1 : readline (mkHeader body.length ++ (body ++ rest))
      = (("Content-Length: ".data ++ natToDigits body.length) ++ [lfChar],
         crChar :: lfChar :: (body ++ rest)) := by
    rw [hin]
    exact readline_of_header _ hds _
  have hne : ((("Content-Length: ".data ++ natToDigits body.length) ++ [lfChar]).length = 0)
      = False := by simp
  have hsw : listStartsWith "Content-Length:".data
      (("Content-Length: ".data ++ natToDigits body.length) ++ [lfChar]) = true := by
    rw [List.append_assoc, header_split]
    exact listStartsWith_append _ _
  have hdrop : ((("Content-Length: ".data ++ natToDigits body.length) ++ [lfChar]).drop 15)
      = ' ' :: (natToDigits body.length ++ [lfChar]) := by
    rw [List.append_assoc, header_drop]
  have hpr : pyRead ((body.length : Nat) : Int) (body ++ rest) = (body, rest) := by
    unfold pyRead
    rw [if_neg (by omega : ¬ (((body.length : Nat) : Int) < 0)), Int.toNat_natCast]
    exact tread_append body hcr rest
  simp only [readFrame, hrl1, hne, if_false, hsw, Bool.not_true, Bool.false_eq_true,
    hdrop, pyInt_natToDigits, readline_crlf, hpr]

/-! ## Serializer output lemmas: everything json.dumps emits is printable ASCII -/

theorem allPrintable_cons (c : Char) (cs : List Char) :
    allPrintable (c :: cs) = ((32 ≤ c.toNat && c.toNat ≤ 126) && allPrintable cs) := by
  simp [allPrintable]

theorem allPrintable_append (a b : List Char) :
    allPrintable (a ++ b) = (allPrintable a && allPrintable b) := by
  simp [allPrintable]

theorem hexDigitChar_printable (n : Nat) (h : n < 16) :
    32 ≤ (hexDigitChar n).toNat ∧ (hexDigitChar n).toNat ≤ 126 := by
  by_cases hn : n < 10
  · simp only [hexDigitChar, if_pos hn]
    rw [toNat_ofNat_small _ (by omega)]
    omega
  · simp only [hexDigitChar, if_neg hn]
    rw [toNat_ofNat_small _ (by omega)]
    omega

theorem hex4_printable (m : Nat) : allPrintable (hex4 m) = true := by
  have h1 := hexDigitChar_printable (m / 4096 % 16) (Nat.mod_lt _ (by omega))
  have h2 := hexDigitChar_printable (m / 256 % 16) (Nat.mod_lt _ (by omega))
  have h3 := hexDigitChar_printable (m / 16 % 16) (Nat.mod_lt _ (by omega))
  have h4 := hexDigitChar_printable (m % 16) (Nat.mod_lt _ (by omega))
  simp only [hex4, allPrintable, List.all_cons, List.all_nil, Bool.and_eq_true,
    decide_eq_true_eq, Bool.and_true]
  omega

theorem escapeChar_printable (c : Char) : allPrintable (escapeChar c) = true := by
  unfold escapeChar
  by_cases h1 : c = '\"'
  · rw [if_pos h1]; decide
  rw [if_neg h1]
  by_cases h2 : c = '\\'
  · rw [if_pos h2]; decide
  rw [if_neg h2]
  by_cases h3 : c = Char.ofNat 8
  · rw [if_pos h3]; decide
  rw [if_neg h3]
  by_cases h4 : c = Char.ofNat 9
  · rw [if_pos h4]; decide
  rw [if_neg h4]
  by_cases h5 : c = lfChar
  · rw [if_pos h5]; decide
  rw [if_neg h5]
  by_cases h6 : c = Char.ofNat 12
  · rw [if_pos h6]; decide
  rw [if_neg h6]
  by_cases h7 : c = crChar
  · rw [if_pos h7]; decide
  rw [if_neg h7]
  by_cases h8 : 32 ≤ c.toNat ∧ c.toNat ≤ 126
  · rw [if_pos h8]
    simp only [allPrintable, List.all_cons, List.all_nil, Bool.and_eq_true,
      decide_eq_true_eq, Bool.and_true]
    omega
  rw [if_neg h8]
  by_cases h9 : c.toNat < 65536
  · rw [if_pos h9, allPrintable_cons, allPrintable_cons, hex4_printable]
    decide
  · rw [if_neg h9, allPrintable_append, allPrintable_cons, allPrintable_cons,
      hex4_printable, allPrintable_cons, allPrintable_cons, hex4_printable]
    decide

theorem escapeList_printable (cs : List Char) : allPrintable (escapeList cs) = true := by
  induction cs with
  | nil => decide
  | cons c cs ih =>
    show allPrintable (escapeChar c ++ escapeList cs) = true
    rw [allPrintable_append, escapeChar_printable c, ih]
    rfl

theorem natToDigits_printable (n : Nat) : allPrintable (natToDigits n) = true := by
  simp only [allPrintable, List.all_eq_true, Bool.and_eq_true, decide_eq_true_eq]
  intro c hc
  have := toNat_bounds_of_digit c (natToDigits_digits n c hc)
  omega

theorem intToChars_printable (n : Int) : allPrintable (intToChars n) = true := by
  unfold intToChars
  by_cases h : n < 0
  · rw [if_pos h, allPrintable_cons, natToDigits_printable]
    decide
  · rw [if_neg h]
    exact natToDigits_printable _

mutual

theorem dumpChars_printable (v : JVal) : allPrintable (dumpChars v) = true := by
  match v with
  | .null => decide
  | .bool true => decide
  | .bool false => decide
  | .num n => exact intToChars_printable n
  | .str s =>
    show allPrintable ('\"' :: (escapeList s.data ++ ['\"'])) = true
    rw [allPrintable_cons, allPrintable_append, escapeList_printable]
    decide
  | .arr [] => decide
  | .arr (x :: xs) =>
    show allPrintable ('[' :: ((dumpChars x ++ dumpsElems xs) ++ [']'])) = true
    rw [allPrintable_cons, allPrintable_append, allPrintable_append,
      dumpChars_printable x, dumpsElems_printable xs]
    decide
  | .obj [] => decide
  | .obj (m :: ms) =>
    show allPrintable (lbrace :: ((dumpMember m ++ dumpsMembers ms) ++ [rbrace])) = true
    rw [allPrintable_cons, allPrintable_append, allPrintable_append,
      dumpMember_printable m, dumpsMembers_printable ms]
    decide

theorem dumpsElems_printable (xs : List JVal) : allPrintable (dumpsElems xs) = true := by
  match xs with
  | [] => decide
  | x :: xs =>
    show allPrintable (',' :: ' ' :: (dumpChars x ++ dumpsElems xs)) = true
    rw [allPrintable_cons, allPrintable_cons, allPrintable_append,
      dumpChars_printable x, dumpsElems_printable xs]
    decide

theorem dumpMember_printable (m : String × JVal) : allPrintable (dumpMember m) = true := by
  match m with
  | (k, v) =>
    show allPrintable
      ('\"' :: (escapeList k.data ++ ('\"' :: ':' :: ' ' :: dumpChars v))) = true
    rw [allPrintable_cons, allPrintable_append, escapeList_printable,
      allPrintable_cons, allPrintable_cons, allPrintable_cons, dumpChars_printable v]
    decide

theorem dumpsMembers_printable (ms : List (String × JVal)) :
    allPrintable (dumpsMembers ms) = true := by
  match ms with
  | [] => decide
  | m :: ms =>
    show allPrintable (',' :: ' ' :: (dumpMember m ++ dumpsMembers ms)) = true
    rw [allPrintable_cons, allPrintable_cons, allPrintable_append,
      dumpMember_printable m, dumpsMembers_printable ms]
    decide

end

theorem printable_noCR (cs : List Char) (h : allPrintable cs = true) : noCR cs = true := by
  simp only [allPrintable, List.all_eq_true, Bool.and_eq_true, decide_eq_true_eq] at h
  simp only [noCR, List.all_eq_true, Bool.not_eq_eq_eq_not, Bool.not_true,
    decide_eq_false_iff_not]
  intro c hc
  have := h c hc
  exact char_ne_of_toNat_ne c crChar
    (by simp only [show crChar.toNat = 13 from rfl]; omega)

theorem dumpChars_noCR (v : JVal) : noCR (dumpChars v) = true :=
  printable_noCR _ (dumpChars_printable v)

theorem utf8Len_eq_length (cs : List Char) (h : allPrintable cs = true) :
    utf8Len cs = cs.length := by
  induction cs with
  | nil => rfl
  | cons c cs ih =>
    rw [allPrintable_cons] at h
    simp only [Bool.and_eq_true, decide_eq_true_eq] at h
    show utf8CharLen c + utf8Len cs = (c :: cs).length
    rw [utf8CharLen, if_pos (by omega), ih h.2, List.length_cons]
    omega

/-! ## Fuel bounds: the serialized text is at least as long as the fuel needed -/

theorem escapeChar_length_pos (c : Char) : 1 ≤ (escapeChar c).length := by
  unfold escapeChar
  repeat' split
  all_goals simp

theorem escapeList_length (cs : List Char) : cs.length ≤ (escapeList cs).length := by
  induction cs with
  | nil => simp [escapeList]
  | cons c cs ih =>
    show (c :: cs).length ≤ (escapeChar c ++ escapeList cs).length
    rw [List.length_cons, List.length_append]
    have := escapeChar_length_pos c
    omega

mutual

theorem needJ_le (v : JVal) : needJ v ≤ (dumpChars v).length := by
  match v with
  | .null => decide
  | .bool true => decide
  | .bool false => decide
  | .num n =>
    show 1 ≤ (intToChars n).length
    unfold intToChars
    by_cases h : n < 0
    · rw [if_pos h]; simp
    · rw [if_neg h]
      cases hc : natToDigits (-n).toNat with
      | nil => exact absurd hc (natToDigits_ne_nil _)
      | cons c cs =>
        cases hd : natToDigits n.toNat with
        | nil => exact absurd hd (natToDigits_ne_nil _)
        | cons d ds => simp [hd]
  | .str s =>
    show s.length + 2 ≤ ('\"' :: (escapeList s.data ++ ['\"'])).length
    have h1 := escapeList_length s.data
    have h2 : s.length = s.data.length := rfl
    simp only [List.length_cons, List.length_append, List.length_singleton]
    omega
  | .arr [] => decide
  | .arr (x :: xs) =>
    show 1 + needElems (x :: xs) ≤ ('[' :: ((dumpChars x ++ dumpsElems xs) ++ [']'])).length
    have h1 := needJ_le x
    have h2 := needElems_le xs
    show 1 + (1 + needJ x + needElems xs) ≤ _
    simp only [List.length_cons, List.length_append, List.length_singleton]
    omega
  | .obj [] => decide
  | .obj ((k, v) :: ms) =>
    show 1 + needMembers ((k, v) :: ms)
      ≤ (lbrace :: ((dumpMember (k, v) ++ dumpsMembers ms) ++ [rbrace])).length
    have h1 := needJ_le v
    have h2 := needMembers_le ms
    have h3 := escapeList_length k.data
    have h4 : k.length = k.data.length := rfl
    show 1 + (1 + (k.length + 1) + needJ v + needMembers ms) ≤ _
    simp only [List.length_cons, List.length_append, List.length_singleton, dumpMember]
    omega

theorem needElems_le (xs : List JVal) : needElems xs ≤ (dumpsElems xs).length := by
  match xs with
  | [] => decide
  | x :: xs =>
    show 1 + needJ x + needElems xs ≤ (',' :: ' ' :: (dumpChars x ++ dumpsElems xs)).length
    have h1 := needJ_le x
    have h2 := needElems_le xs
    simp only [List.length_cons, List.length_append]
    omega

theorem needMembers_le (ms : List (String × JVal)) :
    needMembers ms ≤ (dumpsMembers ms).length := by
  match ms with
  | [] => decide
  | (k, v) :: ms =>
    show 1 + (k.length + 1) + needJ v + needMembers ms
      ≤ (',' :: ' ' :: (dumpMember (k, v) ++ dumpsMembers ms)).length
    have h1 := needJ_le v
    have h2 := needMembers_le ms
    have h3 := escapeList_length k.data
    have h4 : k.length = k.data.length := rfl
    simp only [List.length_cons, List.length_append, dumpMember]
    omega

end

/-! ## Round-trip helper lemmas -/

theorem string_mk_data (s : String) : String.mk s.data = s := rfl

theorem char_toNat_valid (c : Char) :
    c.toNat < 55296 ∨ (57343 < c.toNat ∧ c.toNat < 1114112) := by
  have h := c.valid
  unfold UInt32.isValidChar Nat.isValidChar at h
  exact h

theorem hexVal_hexDigitChar (d : Nat) (h : d < 16) : hexVal (hexDigitChar d) = some d := by
  by_cases hd : d < 10
  · have ht : (hexDigitChar d).toNat = 48 + d := by
      simp only [hexDigitChar, if_pos hd]
      exact toNat_ofNat_small _ (by omega)
    unfold hexVal
    rw [ht, if_pos (by omega : 48 ≤ 48 + d ∧ 48 + d ≤ 57)]
    congr 1
    omega
  · have ht : (hexDigitChar d).toNat = 87 + d := by
      simp only [hexDigitChar, if_neg hd]
      exact toNat_ofNat_small _ (by omega)
    unfold hexVal
    rw [ht, if_neg (by omega : ¬ (48 ≤ 87 + d ∧ 87 + d ≤ 57)),
      if_pos (by omega : 97 ≤ 87 + d ∧ 87 + d ≤ 102)]
    congr 1
    omega

theorem parseHex4_hex4 (m : Nat) (h : m < 65536) (rest : List Char) :
    parseHex4 (hex4 m ++ rest) = some (m, rest) := by
  have e1 := hexVal_hexDigitChar (m / 4096 % 16) (Nat.mod_lt _ (by omega))
  have e2 := hexVal_hexDigitChar (m / 256 % 16) (Nat.mod_lt _ (by omega))
  have e3 := hexVal_hexDigitChar (m / 16 % 16) (Nat.mod_lt _ (by omega))
  have e4 := hexVal_hexDigitChar (m % 16) (Nat.mod_lt _ (by omega))
  show parseHex4 (hexDigitChar (m / 4096 % 16) :: hexDigitChar (m / 256 % 16)
    :: hexDigitChar (m / 16 % 16) :: hexDigitChar (m % 16) :: rest) = some (m, rest)
  rw [parseHex4, e1, e2, e3, e4]
  simp only [Option.some.injEq, Prod.mk.injEq, and_true]
  omega

/-! ## Dict folding on distinct keys -/

theorem dictInsert_new (d : List (String × JVal)) (k : String) (v : JVal)
    (h : ∀ p ∈ d, p.1 ≠ k) : dictInsert d k v = d ++ [(k, v)] := by
  unfold dictInsert
  rw [if_neg]
  simp only [List.any_eq_true, decide_eq_true_eq, not_exists]
  intro p hp
  exact h p hp.1 hp.2

theorem foldl_dictInsert (ps : List (String × JVal)) : ∀ acc,
    (∀ p ∈ ps, ∀ q ∈ acc, q.1 ≠ p.1) → nodupKeys (ps.map Prod.fst) = true →
    ps.foldl (fun d p => dictInsert d p.1 p.2) acc = acc ++ ps := by
  induction ps with
  | nil =>
    intro acc _ _
    simp
  | cons p ps ih =>
    intro acc hacc hnd
    rw [List.map_cons] at hnd
    simp only [nodupKeys, Bool.and_eq_true, Bool.not_eq_eq_eq_not, Bool.not_true,
      decide_eq_false_iff_not] at hnd
    rw [List.foldl_cons,
      dictInsert_new acc p.1 p.2 (fun q hq => hacc p (by simp) q hq)]
    rw [ih (acc ++ [(p.1, p.2)]) ?hnew hnd.2]
    · simp
    case hnew =>
      intro r hr q hq
      rcases List.mem_append.mp hq with h1 | h1
      · exact hacc r (by simp [hr]) q h1
      · simp only [List.mem_singleton] at h1
        subst h1
        show p.1 ≠ r.1
        intro he
        exact hnd.1 (he ▸ List.mem_map_of_mem Prod.fst hr)

theorem dictFold_nodup (ps : List (String × JVal))
    (h : nodupKeys (ps.map Prod.fst) = true) : dictFold ps = ps := by
  unfold dictFold
  rw [foldl_dictInsert ps [] (by simp) h]
  simp

/-! ## Heads of serialized values -/

theorem dumpChars_head (v : JVal) :
    ∃ c t, dumpChars v = c :: t ∧ isJsonWs c = false ∧ c ≠ ']' ∧ c ≠ rbrace := by
  match v with
  | .null => exact ⟨'n', _, rfl, by decide, by decide, by decide⟩
  | .bool true => exact ⟨'t', _, rfl, by decide, by decide, by decide⟩
  | .bool false => exact ⟨'f', _, rfl, by decide, by decide, by decide⟩
  | .num n =>
    show ∃ c t, intToChars n = c :: t ∧ _
    unfold intToChars
    by_cases hn : n < 0
    · rw [if_pos hn]
      exact ⟨'-', _, rfl, by decide, by decide, by decide⟩
    · rw [if_neg hn]
      obtain ⟨c, cs, hcons, hdig, _⟩ := natToDigits_cons n.toNat
      have hb := toNat_bounds_of_digit c hdig
      refine ⟨c, cs, hcons, isJsonWs_digit c hdig, ?_, ?_⟩
      · exact char_ne_of_toNat_ne c ']'
          (by simp only [show (']').toNat = 93 from rfl]; omega)
      · exact char_ne_of_toNat_ne c rbrace
          (by simp only [show rbrace.toNat = 125 from rfl]; omega)
  | .str s0 => exact ⟨'\"', _, rfl, by decide, by decide, by decide⟩
  | .arr [] => exact ⟨'[', _, rfl, by decide, by decide, by decide⟩
  | .arr (x :: xs) => exact ⟨'[', _, rfl, by decide, by decide, by decide⟩
  | .obj [] => exact ⟨lbrace, _, rfl, by decide, by decide, by decide⟩
  | .obj (m :: ms) => exact ⟨lbrace, _, rfl, by decide, by decide, by decide⟩

theorem skipWs_dumpChars (v : JVal) (t : List Char) :
    skipWs (dumpChars v ++ t) = dumpChars v ++ t := by
  obtain ⟨c, t2, hcons, hws, _, _⟩ := dumpChars_head v
  rw [hcons, List.cons_append]
  exact skipWs_cons_false c _ hws

theorem needJ_pos (v : JVal) : 1 ≤ needJ v := by
  match v with
  | .null => simp [needJ]
  | .bool b => simp [needJ]
  | .num n => simp [needJ]
  | .str s => simp [needJ]
  | .arr [] => simp [needJ]
  | .arr (x :: xs) => simp [needJ]
  | .obj [] => simp [needJ]
  | .obj ((k, v) :: ms) => simp [needJ]

/-! ## One escaped character round-trips through the string-body parser -/

theorem parseStrBody_surrogate (fuel : Nat) (hi lo : Nat) (tail : List Char)
    (hhi1 : 55296 ≤ hi) (hhi2 : hi < 56320) (hhi3 : hi < 65536)
    (hlo1 : 56320 ≤ lo) (hlo2 : lo < 57344) (hlo3 : lo < 65536) :
    parseStrBody (fuel + 1)
      ('\\' :: 'u' :: (hex4 hi ++ ('\\' :: 'u' :: (hex4 lo ++ tail))))
      = (parseStrBody fuel tail).map
          (fun p => (Char.ofNat (65536 + (hi - 55296) * 1024 + (lo - 56320)) :: p.1, p.2)) := by
  have hpar1 := parseHex4_hex4 hi hhi3 ('\\' :: 'u' :: (hex4 lo ++ tail))
  have hpar2 := parseHex4_hex4 lo hlo3 tail
  have hno1 : ¬ (hi < 55296 ∨ 57344 ≤ hi) := by omega
  have hno1b : ¬ 57344 ≤ hi := by omega
  have hcond : (56320 ≤ lo && lo < 57344) = true := by
    simp only [Bool.and_eq_true, decide_eq_true_eq]
    exact ⟨hlo1, hlo2⟩
  simp [parseStrBody, hpar1, hno1, hno1b, hhi2, hpar2, hcond]
  exact fun h => absurd h (by omega)

theorem parseStrBody_escape_step (fuel : Nat) (c : Char) (cs rest : List Char)
    (ih : parseStrBody fuel (escapeList cs ++ '\"' :: rest) = some (cs, rest)) :
    parseStrBody (fuel + 1) (escapeChar c ++ (escapeList cs ++ '\"' :: rest))
      = some (c :: cs, rest) := by
  unfold escapeChar
  by_cases h1 : c = '\"'
  · subst h1
    rw [if_pos rfl]
    show parseStrBody (fuel + 1) ('\\' :: '\"' :: (escapeList cs ++ '\"' :: rest)) = _
    simp [parseStrBody, escShort, ih]
  rw [if_neg h1]
  by_cases h2 : c = '\\'
  · subst h2
    rw [if_pos rfl]
    show parseStrBody (fuel + 1) ('\\' :: '\\' :: (escapeList cs ++ '\"' :: rest)) = _
    simp [parseStrBody, escShort, ih]
  rw [if_neg h2]
  by_cases h3 : c = Char.ofNat 8
  · subst h3
    rw [if_pos rfl]
    show parseStrBody (fuel + 1) ('\\' :: 'b' :: (escapeList cs ++ '\"' :: rest)) = _
    simp [parseStrBody, escShort, ih]
  rw [if_neg h3]
  by_cases h4 : c = Char.ofNat 9
  · subst h4
    rw [if_pos rfl]
    show parseStrBody (fuel + 1) ('\\' :: 't' :: (escapeList cs ++ '\"' :: rest)) = _
    simp [parseStrBody, escShort, ih]
  rw [if_neg h4]
  by_cases h5 : c = lfChar
  · subst h5
    rw [if_pos rfl]
    show parseStrBody (fuel + 1) ('\\' :: 'n' :: (escapeList cs ++ '\"' :: rest)) = _
    simp [parseStrBody, escShort, ih]
  rw [if_neg h5]
  by_cases h6 : c = Char.ofNat 12
  · subst h6
    rw [if_pos rfl]
    show parseStrBody (fuel + 1) ('\\' :: 'f' :: (escapeList cs ++ '\"' :: rest)) = _
    simp [parseStrBody, escShort, ih]
  rw [if_neg h6]
  by_cases h7 : c = crChar
  · subst h7
    rw [if_pos rfl]
    show parseStrBody (fuel + 1) ('\\' :: 'r' :: (escapeList cs ++ '\"' :: rest)) = _
    simp [parseStrBody, escShort, ih]
  rw [if_neg h7]
  by_cases h8 : 32 ≤ c.toNat ∧ c.toNat ≤ 126
  · rw [if_pos h8]
    show parseStrBody (fuel + 1) (c :: (escapeList cs ++ '\"' :: rest)) = _
    simp [parseStrBody, h1, h2, show ¬ (c.toNat < 32) from by omega, ih]
  rw [if_neg h8]
  by_cases h9 : c.toNat < 65536
  · rw [if_pos h9]
    have hpar := parseHex4_hex4 c.toNat h9 (escapeList cs ++ '\"' :: rest)
    have hdis : c.toNat < 55296 ∨ 57344 ≤ c.toNat := by
      rcases char_toNat_valid c with h | h
      · exact Or.inl h
      · omega
    show parseStrBody (fuel + 1)
      ('\\' :: 'u' :: (hex4 c.toNat ++ (escapeList cs ++ '\"' :: rest))) = _
    simp [parseStrBody, hpar, hdis, ih, Char.ofNat_toNat]
  · rw [if_neg h9]
    have hflt : c.toNat < 1114112 := by
      rcases char_toNat_valid c with h | h
      · omega
      · omega
    show parseStrBody (fuel + 1)
      ('\\' :: 'u' :: (hex4 (55296 + (c.toNat - 65536) / 1024)
        ++ ('\\' :: 'u' :: (hex4 (56320 + (c.toNat - 65536) % 1024)
          ++ (escapeList cs ++ '\"' :: rest))))) = _
    rw [parseStrBody_surrogate fuel (55296 + (c.toNat - 65536) / 1024)
        (56320 + (c.toNat - 65536) % 1024) (escapeList cs ++ '\"' :: rest)
        (by omega) (by omega) (by omega) (by omega) (by omega) (by omega), ih]
    rw [show 65536 + (55296 + (c.toNat - 65536) / 1024 - 55296) * 1024
        + (56320 + (c.toNat - 65536) % 1024 - 56320) = c.toNat from by omega,
      Char.ofNat_toNat]
    rfl

/-! ## Number literal round-trip -/

theorem restOk_bracket (rest : List Char) : restOk (']' :: rest) :=
  ⟨by decide, by decide, by decide, by decide⟩

theorem restOk_brace (rest : List Char) : restOk (rbrace :: rest) :=
  ⟨by decide, by decide, by decide, by decide⟩

theorem restOk_comma (rest : List Char) : restOk (',' :: rest) :=
  ⟨by decide, by decide, by decide, by decide⟩

theorem munchDigits_restOk (m : Nat) (rest : List Char) (hrest : restOk rest) :
    munchDigits 0 (natToDigits m ++ rest) = (m, rest) := by
  cases rest with
  | nil =>
    rw [List.append_nil]
    exact munchDigits_full m
  | cons c cs => exact munchDigits_stop m c cs hrest.1

theorem finishNum_restOk (neg : Bool) (m : Nat) (rest : List Char) (hrest : restOk rest) :
    finishNum neg (m, rest)
      = some (.num (if neg then -(m : Int) else (m : Int)), rest) := by
  cases rest with
  | nil => rfl
  | cons c cs =>
    obtain ⟨_, h2, h3, h4⟩ := hrest
    simp [finishNum, h2, h3, h4]

theorem finishNum_restOk_true (m : Nat) (rest : List Char) (hrest : restOk rest) :
    finishNum true (m, rest) = some (.num (-(m : Int)), rest) := by
  rw [finishNum_restOk true m rest hrest]
  simp

theorem finishNum_restOk_false (m : Nat) (rest : List Char) (hrest : restOk rest) :
    finishNum false (m, rest) = some (.num ((m : Int)), rest) := by
  rw [finishNum_restOk false m rest hrest]
  simp

theorem num_head_cases (n : Int) : ∃ c t, intToChars n = c :: t ∧
    c ≠ 'n' ∧ c ≠ 't' ∧ c ≠ 'f' ∧ c ≠ '\"' ∧ c ≠ '[' ∧ c ≠ lbrace := by
  unfold intToChars
  by_cases hn : n < 0
  · rw [if_pos hn]
    exact ⟨'-', _, rfl, by decide, by decide, by decide, by decide, by decide, by decide⟩
  · rw [if_neg hn]
    obtain ⟨c, cs, hcons, hdig, _⟩ := natToDigits_cons n.toNat
    have hb := toNat_bounds_of_digit c hdig
    refine ⟨c, cs, hcons, ?_, ?_, ?_, ?_, ?_, ?_⟩
    · exact char_ne_of_toNat_ne c 'n' (by simp only [show ('n').toNat = 110 from rfl]; omega)
    · exact char_ne_of_toNat_ne c 't' (by simp only [show ('t').toNat = 116 from rfl]; omega)
    · exact char_ne_of_toNat_ne c 'f' (by simp only [show ('f').toNat = 102 from rfl]; omega)
    · exact char_ne_of_toNat_ne c '\"' (by simp only [show ('\"').toNat = 34 from rfl]; omega)
    · exact char_ne_of_toNat_ne c '[' (by simp only [show ('[').toNat = 91 from rfl]; omega)
    · exact char_ne_of_toNat_ne c lbrace
        (by simp only [show lbrace.toNat = 123 from rfl]; omega)

theorem parseNumberJ_intToChars (n : Int) (rest : List Char) (hrest : restOk rest) :
    parseNumberJ (intToChars n ++ rest) = some (.num n, rest) := by
  unfold intToChars
  by_cases hn : n < 0
  · rw [if_pos hn, List.cons_append]
    obtain ⟨c, cs, hcons, hdig, _⟩ := natToDigits_cons (-n).toNat
    rw [hcons, List.cons_append]
    show parseNumberJ ('-' :: c :: (cs ++ rest)) = _
    have hcne : ('-' : Char) = '-' := rfl
    simp only [parseNumberJ, if_pos hcne, hdig, if_pos rfl]
    rw [← List.cons_append, ← hcons, munchDigits_restOk _ rest hrest,
      finishNum_restOk_true _ rest hrest]
    have he : -(((-n).toNat : Nat) : Int) = n := by omega
    rw [he]
    simp
  · rw [if_neg hn]
    obtain ⟨c, cs, hcons, hdig, _⟩ := natToDigits_cons n.toNat
    rw [hcons, List.cons_append]
    have hb := toNat_bounds_of_digit c hdig
    have hcm : c ≠ '-' := char_ne_of_toNat_ne c '-'
      (by simp only [show ('-').toNat = 45 from rfl]; omega)
    simp only [parseNumberJ, if_neg hcm, hdig, if_pos rfl]
    rw [← List.cons_append, ← hcons, munchDigits_restOk _ rest hrest,
      finishNum_restOk_false _ rest hrest]
    have he : ((n.toNat : Nat) : Int) = n := by omega
    rw [he]
    simp

/-! ## skipWs on the separator characters -/

theorem skipWs_colon (t : List Char) : skipWs (':' :: t) = ':' :: t :=
  skipWs_cons_false _ _ (by decide)

theorem skipWs_comma (t : List Char) : skipWs (',' :: t) = ',' :: t :=
  skipWs_cons_false _ _ (by decide)

theorem skipWs_quote (t : List Char) : skipWs ('\"' :: t) = '\"' :: t :=
  skipWs_cons_false _ _ (by decide)

theorem skipWs_rbracket (t : List Char) : skipWs (']' :: t) = ']' :: t :=
  skipWs_cons_false _ _ (by decide)

theorem skipWs_rbrace (t : List Char) : skipWs (rbrace :: t) = rbrace :: t :=
  skipWs_cons_false _ _ (by decide)

theorem skipWs_space (t : List Char) : skipWs (' ' :: t) = skipWs t :=
  skipWs_cons_true _ _ (by decide)

/-! ## The printer-parser round trip, by induction on fuel -/

theorem parse_round (fuel : Nat) :
    (∀ cs rest, cs.length + 1 ≤ fuel →
        parseStrBody fuel (escapeList cs ++ '\"' :: rest) = some (cs, rest))
  ∧ (∀ v s rest, noDupJ v = true → needJ v ≤ fuel →
        skipWs s = dumpChars v ++ rest → restOk rest →
        parseVal fuel s = some (v, rest))
  ∧ (∀ x xs s rest, noDupJ x = true → noDupJList xs = true →
        1 + needJ x + needElems xs ≤ fuel →
        skipWs s = dumpChars x ++ (dumpsElems xs ++ (']' :: rest)) →
        parseElems fuel s = some (x :: xs, rest))
  ∧ (∀ k v ms s rest, noDupJ v = true → noDupJMembers ms = true →
        1 + (k.length + 1) + needJ v + needMembers ms ≤ fuel →
        skipWs s = dumpMember (k, v) ++ (dumpsMembers ms ++ (rbrace :: rest)) →
        parseMembers fuel s = some ((k, v) :: ms, rest)) := by
  induction fuel with
  | zero =>
    refine ⟨?_, ?_, ?_, ?_⟩
    · intro cs rest hf
      omega
    · intro v s rest _ hneed _ _
      have := needJ_pos v
      omega
    · intro x xs s rest _ _ hneed _
      omega
    · intro k v ms s rest _ _ hneed _
      omega
  | succ fuel ih =>
    obtain ⟨ihS, ihV, ihE, ihM⟩ := ih
    refine ⟨?_, ?_, ?_, ?_⟩
    · -- string bodies
      intro cs rest hf
      cases cs with
      | nil =>
        show parseStrBody (fuel + 1) ('\"' :: rest) = some ([], rest)
        simp [parseStrBody]
      | cons c cs2 =>
        have hassoc : escapeList (c :: cs2) ++ '\"' :: rest
            = escapeChar c ++ (escapeList cs2 ++ '\"' :: rest) := by
          show (escapeChar c ++ escapeList cs2) ++ _ = _
          rw [List.append_assoc]
        rw [hassoc]
        exact parseStrBody_escape_step fuel c cs2 rest
          (ihS cs2 rest (by simp at hf; omega))
    · -- values
      intro v s rest hnd hneed hskip hrest
      cases v with
      | null =>
        rw [show dumpChars .null ++ rest = 'n' :: 'u' :: 'l' :: 'l' :: rest from rfl] at hskip
        simp [parseVal, hskip]
      | bool b =>
        cases b with
        | true =>
          rw [show dumpChars (.bool true) ++ rest
              = 't' :: 'r' :: 'u' :: 'e' :: rest from rfl] at hskip
          simp [parseVal, hskip]
        | false =>
          rw [show dumpChars (.bool false) ++ rest
              = 'f' :: 'a' :: 'l' :: 's' :: 'e' :: rest from rfl] at hskip
          simp [parseVal, hskip]
      | num n =>
        obtain ⟨c, t, hcons, hn1, hn2, hn3, hn4, hn5, hn6⟩ := num_head_cases n
        have hskip2 : skipWs s = c :: (t ++ rest) := by
          rw [hskip]
          show intToChars n ++ rest = _
          rw [hcons, List.cons_append]
        simp only [parseVal, hskip2,
          if_neg hn1, if_neg hn2, if_neg hn3, if_neg hn4, if_neg hn5, if_neg hn6]
        rw [← List.cons_append, ← hcons]
        exact parseNumberJ_intToChars n rest hrest
      | str s0 =>
        have hskip2 : skipWs s = '\"' :: (escapeList s0.data ++ ('\"' :: rest)) := by
          rw [hskip]
          show '\"' :: (escapeList s0.data ++ ['\"']) ++ rest = _
          simp
        have hS := ihS s0.data rest (by
          simp only [needJ] at hneed
          have hk : s0.length = s0.data.length := rfl
          omega)
        simp [parseVal, hskip2, hS, string_mk_data]
      | arr xs =>
        cases xs with
        | nil =>
          have hskip2 : skipWs s = '[' :: (']' :: rest) := by
            rw [hskip]
            rfl
          simp [parseVal, hskip2, skipWs_rbracket]
        | cons x xs =>
          simp only [noDupJ, noDupJList, Bool.and_eq_true] at hnd
          obtain ⟨c0, t0, hx, hws0, hne1, hne2⟩ := dumpChars_head x
          have hR : dumpChars x ++ (dumpsElems xs ++ (']' :: rest))
              = c0 :: (t0 ++ (dumpsElems xs ++ (']' :: rest))) := by
            rw [hx]
            rfl
          have hskip2 : skipWs s
              = '[' :: (c0 :: (t0 ++ (dumpsElems xs ++ (']' :: rest)))) := by
            rw [hskip]
            show '[' :: ((dumpChars x ++ dumpsElems xs) ++ [']']) ++ rest = _
            rw [← hR]
            simp
          have hswR : skipWs (c0 :: (t0 ++ (dumpsElems xs ++ (']' :: rest))))
              = dumpChars x ++ (dumpsElems xs ++ (']' :: rest)) := by
            rw [skipWs_cons_false _ _ hws0, ← hR]
          have hE := ihE x xs (c0 :: (t0 ++ (dumpsElems xs ++ (']' :: rest)))) rest
            hnd.1 hnd.2
            (by simp only [needJ, needElems] at hneed; omega) hswR
          simp [parseVal, hskip2, hswR, hne1, hE]
          rw [hR]
          simp [hne1, hE]
      | obj ms =>
        cases ms with
        | nil =>
          have hskip2 : skipWs s = lbrace :: (rbrace :: rest) := by
            rw [hskip]
            rfl
          simp [parseVal, hskip2, skipWs_rbrace,
            show (lbrace = 'n') = False from by simp [lbrace],
            show (lbrace = 't') = False from by simp [lbrace],
            show (lbrace = 'f') = False from by simp [lbrace],
            show (lbrace = '\"') = False from by simp [lbrace],
            show (lbrace = '[') = False from by simp [lbrace]]
        | cons m ms2 =>
          obtain ⟨k, v⟩ := m
          simp only [noDupJ, noDupJMembers, Bool.and_eq_true] at hnd
          have hskip2 : skipWs s
              = lbrace :: ('\"' :: (escapeList k.data
                  ++ '\"' :: ':' :: ' ' :: (dumpChars v
                    ++ (dumpsMembers ms2 ++ rbrace :: rest)))) := by
            rw [hskip]
            show lbrace :: ((dumpMember (k, v) ++ dumpsMembers ms2) ++ [rbrace]) ++ rest = _
            simp [dumpMember]
          have hM := ihM k v ms2 ('\"' :: (escapeList k.data
                  ++ '\"' :: ':' :: ' ' :: (dumpChars v
                    ++ (dumpsMembers ms2 ++ rbrace :: rest)))) rest
            hnd.2.1 hnd.2.2
            (by simp only [needJ, needMembers] at hneed; omega)
            (by rw [skipWs_quote]; simp [dumpMember])
          simp [parseVal, hskip2, skipWs_quote, hM, dictFold_nodup _ hnd.1,
            show (lbrace = 'n') = False from by simp [lbrace],
            show (lbrace = 't') = False from by simp [lbrace],
            show (lbrace = 'f') = False from by simp [lbrace],
            show (lbrace = '\"') = False from by simp [lbrace],
            show (lbrace = '[') = False from by simp [lbrace],
            show ('\"' = rbrace) = False from by simp [rbrace]]
    · -- array elements
      intro x xs s rest hndx hndxs hneed hskip
      have hres : restOk (dumpsElems xs ++ (']' :: rest)) := by
        cases xs with
        | nil => exact restOk_bracket rest
        | cons y ys => exact restOk_comma _
      have hV := ihV x s (dumpsElems xs ++ (']' :: rest)) hndx
        (by omega) hskip hres
      cases xs with
      | nil =>
        simp [parseElems, hV, dumpsElems, skipWs_rbracket]
      | cons y ys =>
        simp only [noDupJList, Bool.and_eq_true] at hndxs
        have hDE : dumpsElems (y :: ys) ++ (']' :: rest)
            = ',' :: ' ' :: (dumpChars y ++ (dumpsElems ys ++ (']' :: rest))) := by
          show (',' :: ' ' :: (dumpChars y ++ dumpsElems ys)) ++ _ = _
          simp
        have hE2 := ihE y ys
          (' ' :: (dumpChars y ++ (dumpsElems ys ++ (']' :: rest)))) rest
          hndxs.1 hndxs.2
          (by simp only [needElems] at hneed; have := needJ_pos x; omega)
          (by rw [skipWs_space, skipWs_dumpChars])
        simp [parseElems, hV, hDE, skipWs_comma, hE2]
    · -- object members
      intro k v ms s rest hndv hndms hneed hskip
      cases ms with
      | nil =>
        have hskip2 : skipWs s = '\"' :: (escapeList k.data ++ '\"' :: ':' :: ' '
            :: (dumpChars v ++ rbrace :: rest)) := by
          rw [hskip]
          show ('\"' :: (escapeList k.data ++ ('\"' :: ':' :: ' ' :: dumpChars v))) ++ _ = _
          simp [dumpsMembers]
        have hS := ihS k.data (':' :: ' ' :: (dumpChars v ++ rbrace :: rest))
          (by have hk : k.length = k.data.length := rfl; omega)
        have hV := ihV v (' ' :: (dumpChars v ++ rbrace :: rest)) (rbrace :: rest) hndv
          (by omega)
          (by rw [skipWs_space, skipWs_dumpChars]) (restOk_brace rest)
        simp [parseMembers, hskip2, hS, skipWs_colon, hV, skipWs_rbrace, string_mk_data,
          show (rbrace = ',') = False from by simp [rbrace],
          show (rbrace = ':') = False from by simp [rbrace]]
      | cons m2 ms2 =>
        obtain ⟨k2, v2⟩ := m2
        simp only [noDupJMembers, Bool.and_eq_true] at hndms
        have hskip2 : skipWs s = '\"' :: (escapeList k.data ++ '\"' :: ':' :: ' '
            :: (dumpChars v ++ ',' :: ' ' :: (dumpMember (k2, v2)
              ++ (dumpsMembers ms2 ++ rbrace :: rest)))) := by
          rw [hskip]
          show ('\"' :: (escapeList k.data ++ ('\"' :: ':' :: ' ' :: dumpChars v))) ++ _ = _
          simp [dumpsMembers]
        have hS := ihS k.data (':' :: ' ' :: (dumpChars v ++ ',' :: ' '
            :: (dumpMember (k2, v2) ++ (dumpsMembers ms2 ++ rbrace :: rest))))
          (by have hk : k.length = k.data.length := rfl; omega)
        have hV := ihV v (' ' :: (dumpChars v ++ ',' :: ' ' :: (dumpMember (k2, v2)
              ++ (dumpsMembers ms2 ++ rbrace :: rest))))
          (',' :: ' ' :: (dumpMember (k2, v2) ++ (dumpsMembers ms2 ++ rbrace :: rest)))
          hndv (by omega)
          (by rw [skipWs_space, skipWs_dumpChars]) (restOk_comma _)
        have hM2 := ihM k2 v2 ms2
          (' ' :: (dumpMember (k2, v2) ++ (dumpsMembers ms2 ++ rbrace :: rest))) rest
          hndms.1 hndms.2
          (by simp only [needMembers] at hneed; have := needJ_pos v; omega)
          (by rw [skipWs_space]
              rw [show dumpMember (k2, v2) ++ (dumpsMembers ms2 ++ rbrace :: rest)
                  = '\"' :: ((escapeList k2.data ++ ('\"' :: ':' :: ' ' :: dumpChars v2))
                    ++ (dumpsMembers ms2 ++ rbrace :: rest)) from rfl]
              rw [skipWs_quote])
        simp [parseMembers, hskip2, hS, skipWs_colon, hV, skipWs_comma, hM2,
          string_mk_data]

/-! ## Top-level round trip and step lemmas -/

theorem loads_dumps (v : JVal) (h : noDupJ v = true) : loads (dumpChars v) = some v := by
  unfold loads
  have hskip : skipWs (dumpChars v) = dumpChars v ++ [] := by
    rw [List.append_nil]
    have h2 := skipWs_dumpChars v []
    rwa [List.append_nil] at h2
  have hr := (parse_round ((dumpChars v).length + 1)).2.1 v (dumpChars v) [] h
    (by have := needJ_le v; omega) hskip trivial
  rw [hr]
  simp [skipWs]

theorem readFrame_wireFrame (v : JVal) (h : noDupJ v = true) :
    readFrame (wireFrame v) = .frame v [] := by
  have h1 : wireFrame v = mkHeader (dumpChars v).length ++ (dumpChars v ++ []) := by
    unfold wireFrame
    simp
  rw [h1, readFrame_mkFrame (dumpChars v).length (dumpChars v) []
    (dumpChars_noCR v) rfl, loads_dumps v h]

theorem step_mkFrame (n : Nat) (body rest : List Char)
    (hcr : noCR body = true) (hlen : body.length = n) :
    step (mkHeader n ++ (body ++ rest))
      = match loads body with
        | some (.obj fields) =>
            match dispatch fields with
            | .fatal => .fatal
            | .silent => .next [] rest
            | .exitLoop => .exitLoop rest
            | .reply r => .next (wireFrame r) rest
        | some _ => .fatal
        | none => .fatal := by
  unfold step
  rw [readFrame_mkFrame n body rest hcr hlen]
  cases hl : loads body with
  | none => rfl
  | some v => cases v <;> rfl

theorem step_mkFrame_obj (n : Nat) (body rest : List Char)
    (fields : List (String × JVal))
    (hcr : noCR body = true) (hlen : body.length = n)
    (hloads : loads body = some (.obj fields)) :
    step (mkHeader n ++ (body ++ rest))
      = match dispatch fields with
        | .fatal => .fatal
        | .silent => .next [] rest
        | .exitLoop => .exitLoop rest
        | .reply r => .next (wireFrame r) rest := by
  rw [step_mkFrame n body rest hcr hlen, hloads]

theorem run_succ_next (fuel : Nat) (input out rest : List Char)
    (h : step input = .next out rest) :
    run (fuel + 1) input
      = ⟨out ++ (run fuel rest).out, (run fuel rest).leftover, (run fuel rest).outcome⟩ := by
  simp [run, h]

theorem run_succ_exit (fuel : Nat) (input rest : List Char)
    (h : step input = .exitLoop rest) :
    run (fuel + 1) input = ⟨[], rest, .finished⟩ := by
  simp [run, h]

/-! ## Dispatch lemmas, one per branch of the if/elif chain -/

theorem dispatch_initBranch (fields : List (String × JVal))
    (hm : dictGet fields "method" = some (.str "build/initialize")) :
    dispatch fields = match dictGet fields "id" with
      | none => .fatal
      | some i => .reply (initResponse i) := by
  simp [dispatch, hm, isMethodEq]

theorem dispatch_initialized (fields : List (String × JVal))
    (hm : dictGet fields "method" = some (.str "build/initialized")) :
    dispatch fields = .silent := by
  simp [dispatch, hm, isMethodEq]

theorem dispatch_shutdown (fields : List (String × JVal))
    (hm : dictGet fields "method" = some (.str "build/shutdown")) :
    dispatch fields = match dictGet fields "id" with
      | none => .fatal
      | some i => .reply (shutdownResponse i) := by
  simp [dispatch, hm, isMethodEq]

theorem dispatch_exit (fields : List (String × JVal))
    (hm : dictGet fields "method" = some (.str "build/exit")) :
    dispatch fields = .exitLoop := by
  simp [dispatch, hm, isMethodEq]

theorem dispatch_sources (fields : List (String × JVal))
    (hm : dictGet fields "method" = some (.str "buildTarget/sources")) :
    dispatch fields = match dictGet fields "id" with
      | none => .fatal
      | some i => .reply (sourcesResponse i) := by
  simp [dispatch, hm, isMethodEq]

theorem dispatch_unrecognized (fields : List (String × JVal)) (m : String)
    (hm : dictGet fields "method" = some (.str m))
    (hnot : m ∉ (["build/initialize", "build/initialized", "build/shutdown",
      "build/exit", "buildTarget/sources"] : List String)) :
    dispatch fields = match dictGet fields "id" with
      | none => .silent
      | some i => .reply (errorResponse i m) := by
  simp only [List.mem_cons, List.mem_singleton, not_or] at hnot
  obtain ⟨h1, h2, h3, h4, h5, _⟩ := hnot
  simp [dispatch, hm, isMethodEq, h1, h2, h3, h4, h5, pyStr]

theorem dispatch_no_id (fields : List (String × JVal))
    (hid : dictGet fields "id" = none) :
    dispatch fields = .silent ∨ dispatch fields = .exitLoop
      ∨ dispatch fields = .fatal := by
  unfold dispatch
  cases hm : dictGet fields "method" with
  | none => simp
  | some m =>
    by_cases h1 : isMethodEq m "build/initialize" = true
    · simp [h1, hid]
    by_cases h2 : isMethodEq m "build/initialized" = true
    · simp [h1, h2, hid]
    by_cases h3 : isMethodEq m "build/shutdown" = true
    · simp [h1, h2, h3, hid]
    by_cases h4 : isMethodEq m "build/exit" = true
    · simp [h1, h2, h3, h4, hid]
    by_cases h5 : isMethodEq m "buildTarget/sources" = true
    · simp [h1, h2, h3, h4, h5, hid]
    simp [h1, h2, h3, h4, h5, hid]

/-! ## Further helper lemmas for the amended framing claims -/

theorem stripChars_no_space (cs : List Char) (h : ∀ c ∈ cs, isPySpace c = false) :
    stripChars cs = cs := by
  unfold stripChars
  have h1 : cs.dropWhile isPySpace = cs := by
    cases cs with
    | nil => rfl
    | cons c cs2 =>
      rw [List.dropWhile_cons, h c (by simp)]
      simp
  rw [h1]
  have h2 : cs.reverse.dropWhile isPySpace = cs.reverse := by
    cases hr : cs.reverse with
    | nil => rfl
    | cons d ds =>
      rw [List.dropWhile_cons, h d (by rw [← List.mem_reverse, hr]; simp)]
      simp
  rw [h2, List.reverse_reverse]

theorem pyInt_neg_digits (k : Nat) :
    pyInt ('-' :: natToDigits (k + 1)) = some (-(k + 1 : Int)) := by
  unfold pyInt
  rw [stripChars_no_space ('-' :: natToDigits (k + 1)) (by
    intro c hc
    rcases List.mem_cons.mp hc with h | h
    · subst h; decide
    · exact isPySpace_digit c (natToDigits_digits _ c h))]
  simp only [pyIntSigned, if_pos rfl, pyIntDigits_natToDigits]
  simp

theorem utf8Len_ascii (cs : List Char) (h : ∀ c ∈ cs, c.toNat < 128) :
    utf8Len cs = cs.length := by
  induction cs with
  | nil => rfl
  | cons c cs2 ih =>
    show utf8CharLen c + utf8Len cs2 = (c :: cs2).length
    rw [utf8CharLen, if_pos (h c (by simp)), ih (fun d hd => h d (by simp [hd])),
      List.length_cons]
    omega

/-! ## The decoder only produces values with duplicate-free object keys -/

theorem noDupJMembers_iff (ms : List (String × JVal)) :
    noDupJMembers ms = true ↔ ∀ p ∈ ms, noDupJ p.2 = true := by
  induction ms with
  | nil => simp [noDupJMembers]
  | cons p ps ih =>
    obtain ⟨k, v⟩ := p
    simp only [noDupJMembers, Bool.and_eq_true, ih, List.mem_cons]
    constructor
    · rintro ⟨h1, h2⟩ q hq
      rcases hq with hq | hq
      · rw [hq]
        exact h1
      · exact h2 q hq
    · intro h
      exact ⟨h (k, v) (Or.inl rfl), fun q hq => h q (Or.inr hq)⟩

theorem mem_dictInsert (d : List (String × JVal)) (k : String) (v : JVal)
    (p : String × JVal) (hp : p ∈ dictInsert d k v) : p ∈ d ∨ p = (k, v) := by
  unfold dictInsert at hp
  by_cases h : d.any (fun q => decide (q.1 = k)) = true
  · rw [if_pos h] at hp
    obtain ⟨q, hq, he⟩ := List.mem_map.mp hp
    by_cases h2 : q.1 = k
    · right
      rw [if_pos h2] at he
      exact he.symm
    · left
      rw [if_neg h2] at he
      exact he ▸ hq
  · rw [if_neg h] at hp
    rcases List.mem_append.mp hp with h1 | h1
    · exact Or.inl h1
    · simp only [List.mem_singleton] at h1
      exact Or.inr h1

theorem keys_map_update (d : List (String × JVal)) (k : String) (v : JVal) :
    ((d.map (fun p => if p.1 = k then (k, v) else p)).map Prod.fst)
      = d.map Prod.fst := by
  rw [List.map_map]
  apply List.map_congr_left
  intro p _
  by_cases h : p.1 = k
  · simp [Function.comp, h]
  · simp [Function.comp, h]

theorem nodupKeys_append_singleton (xs : List String) (k : String)
    (h1 : nodupKeys xs = true) (h2 : k ∉ xs) :
    nodupKeys (xs ++ [k]) = true := by
  induction xs with
  | nil => simp [nodupKeys]
  | cons x xs ih =>
    simp only [nodupKeys, Bool.and_eq_true, Bool.not_eq_eq_eq_not, Bool.not_true,
      decide_eq_false_iff_not] at h1
    simp only [List.cons_append, nodupKeys, Bool.and_eq_true, Bool.not_eq_eq_eq_not,
      Bool.not_true, decide_eq_false_iff_not]
    refine ⟨?_, ih h1.2 (fun hm => h2 (by simp [hm]))⟩
    intro hm
    rcases List.mem_append.mp hm with hA | hB
    · exact h1.1 hA
    · simp only [List.mem_singleton] at hB
      exact h2 (by simp [hB])

theorem nodupKeys_dictInsert (d : List (String × JVal)) (k : String) (v : JVal)
    (h : nodupKeys (d.map Prod.fst) = true) :
    nodupKeys ((dictInsert d k v).map Prod.fst) = true := by
  unfold dictInsert
  by_cases ha : d.any (fun q => decide (q.1 = k)) = true
  · rw [if_pos ha, keys_map_update]
    exact h
  · rw [if_neg ha, List.map_append]
    simp only [List.map_cons, List.map_nil]
    apply nodupKeys_append_singleton _ _ h
    intro hm
    obtain ⟨p, hp, he⟩ := List.mem_map.mp hm
    exact ha (List.any_eq_true.mpr ⟨p, hp, by simp [he]⟩)

theorem nodupKeys_dictFold (ps : List (String × JVal)) :
    nodupKeys ((dictFold ps).map Prod.fst) = true := by
  unfold dictFold
  suffices h : ∀ acc, nodupKeys (acc.map Prod.fst) = true →
      nodupKeys ((ps.foldl (fun d p => dictInsert d p.1 p.2) acc).map Prod.fst)
        = true by
    exact h [] (by rfl)
  induction ps with
  | nil =>
    intro acc hacc
    simpa using hacc
  | cons p ps ih =>
    intro acc hacc
    rw [List.foldl_cons]
    exact ih _ (nodupKeys_dictInsert acc p.1 p.2 hacc)

theorem foldl_dictInsert_values (ps : List (String × JVal)) : ∀ acc,
    (∀ p ∈ acc, noDupJ p.2 = true) → (∀ p ∈ ps, noDupJ p.2 = true) →
    ∀ p ∈ ps.foldl (fun d p => dictInsert d p.1 p.2) acc, noDupJ p.2 = true := by
  induction ps with
  | nil =>
    intro acc hacc _ p hp
    exact hacc p (by simpa using hp)
  | cons q qs ih =>
    intro acc hacc hps p hp
    rw [List.foldl_cons] at hp
    refine ih (dictInsert acc q.1 q.2) ?_ (fun r hr => hps r (by simp [hr])) p hp
    intro r hr
    rcases mem_dictInsert acc q.1 q.2 r hr with h1 | h1
    · exact hacc r h1
    · rw [h1]
      exact hps q (by simp)

theorem dictFold_values (ps : List (String × JVal))
    (h : ∀ p ∈ ps, noDupJ p.2 = true) :
    ∀ p ∈ dictFold ps, noDupJ p.2 = true :=
  foldl_dictInsert_values ps [] (by simp) h

theorem finishNum_shape (neg : Bool) (p : Nat × List Char) (v : JVal)
    (r : List Char) (h : finishNum neg p = some (v, r)) : ∃ n, v = .num n := by
  obtain ⟨m, rest⟩ := p
  simp only [finishNum] at h
  split at h
  · split at h
    · exact Option.noConfusion h
    · simp only [Option.some.injEq, Prod.mk.injEq] at h
      exact ⟨_, h.1.symm⟩
  · simp only [Option.some.injEq, Prod.mk.injEq] at h
    exact ⟨_, h.1.symm⟩

theorem parseNumberJ_shape (l : List Char) (v : JVal) (r : List Char)
    (h : parseNumberJ l = some (v, r)) : ∃ n, v = .num n := by
  cases l with
  | nil => simp [parseNumberJ] at h
  | cons c cs =>
    simp only [parseNumberJ] at h
    split at h
    · split at h
      · exact Option.noConfusion h
      · split at h
        · exact finishNum_shape _ _ _ _ h
        · exact Option.noConfusion h
    · split at h
      · exact finishNum_shape _ _ _ _ h
      · exact Option.noConfusion h

/-- Every value the fueled parser can produce has duplicate-free keys in
every object: objects are always built through dictFold. -/
theorem parse_noDup (fuel : Nat) :
    (∀ s v r, parseVal fuel s = some (v, r) → noDupJ v = true)
    ∧ (∀ s vs r, parseElems fuel s = some (vs, r) → noDupJList vs = true)
    ∧ (∀ s ms r, parseMembers fuel s = some (ms, r) → noDupJMembers ms = true) := by
  induction fuel with
  | zero =>
    refine ⟨?_, ?_, ?_⟩ <;>
      (intro s a r h; simp [parseVal, parseElems, parseMembers] at h)
  | succ fuel ih =>
    obtain ⟨ihV, ihE, ihM⟩ := ih
    refine ⟨?_, ?_, ?_⟩
    · intro s v r h
      simp only [parseVal] at h
      cases hs : skipWs s with
      | nil =>
        simp only [hs] at h
        exact Option.noConfusion h
      | cons c cs =>
        simp only [hs] at h
        by_cases h1 : c = 'n'
        · rw [if_pos h1] at h
          split at h <;>
            first
              | (exact Option.noConfusion h)
              | (simp only [Option.some.injEq, Prod.mk.injEq] at h
                 rw [← h.1]
                 rfl)
        · rw [if_neg h1] at h
          by_cases h2 : c = 't'
          · rw [if_pos h2] at h
            split at h <;>
              first
                | (exact Option.noConfusion h)
                | (simp only [Option.some.injEq, Prod.mk.injEq] at h
                   rw [← h.1]
                   rfl)
          · rw [if_neg h2] at h
            by_cases h3 : c = 'f'
            · rw [if_pos h3] at h
              split at h <;>
                first
                  | (exact Option.noConfusion h)
                  | (simp only [Option.some.injEq, Prod.mk.injEq] at h
                     rw [← h.1]
                     rfl)
            · rw [if_neg h3] at h
              by_cases h4 : c = '\"'
              · rw [if_pos h4] at h
                rcases Option.map_eq_some'.mp h with ⟨⟨content, r2⟩, hsb, heq⟩
                injection heq with hv hr
                rw [← hv]
                rfl
              · rw [if_neg h4] at h
                by_cases h5 : c = '['
                · rw [if_pos h5] at h
                  cases hs2 : skipWs cs with
                  | nil =>
                    simp only [hs2] at h
                    exact Option.noConfusion h
                  | cons c2 r2 =>
                    simp only [hs2] at h
                    by_cases hb : c2 = ']'
                    · rw [if_pos hb] at h
                      simp only [Option.some.injEq, Prod.mk.injEq] at h
                      rw [← h.1]
                      rfl
                    · rw [if_neg hb] at h
                      rcases Option.map_eq_some'.mp h with ⟨⟨vs, r3⟩, hpe, heq⟩
                      injection heq with hv hr
                      rw [← hv]
                      simp only [noDupJ]
                      exact ihE _ _ _ hpe
                · rw [if_neg h5] at h
                  by_cases h6 : c = lbrace
                  · rw [if_pos h6] at h
                    cases hs2 : skipWs cs with
                    | nil =>
                      simp only [hs2] at h
                      exact Option.noConfusion h
                    | cons c2 r2 =>
                      simp only [hs2] at h
                      by_cases hb : c2 = rbrace
                      · rw [if_pos hb] at h
                        simp only [Option.some.injEq, Prod.mk.injEq] at h
                        rw [← h.1]
                        rfl
                      · rw [if_neg hb] at h
                        rcases Option.map_eq_some'.mp h with ⟨⟨ms, r3⟩, hpm, heq⟩
                        injection heq with hv hr
                        rw [← hv]
                        simp only [noDupJ, Bool.and_eq_true]
                        refine ⟨nodupKeys_dictFold ms, ?_⟩
                        exact (noDupJMembers_iff _).mpr (dictFold_values ms
                          ((noDupJMembers_iff _).mp (ihM _ _ _ hpm)))
                  · rw [if_neg h6] at h
                    obtain ⟨n, hn⟩ := parseNumberJ_shape _ _ _ h
                    rw [hn]
                    rfl
    · intro s vs r h
      simp only [parseElems] at h
      cases hp : parseVal fuel s with
      | none =>
        simp only [hp] at h
        exact Option.noConfusion h
      | some p =>
        obtain ⟨v, r1⟩ := p
        simp only [hp] at h
        cases hs : skipWs r1 with
        | nil =>
          simp only [hs] at h
          exact Option.noConfusion h
        | cons c r2 =>
          simp only [hs] at h
          by_cases hc : c = ','
          · rw [if_pos hc] at h
            rcases Option.map_eq_some'.mp h with ⟨⟨vs2, r3⟩, hpe, heq⟩
            injection heq with hv hr
            rw [← hv]
            simp only [noDupJList, Bool.and_eq_true]
            exact ⟨ihV _ _ _ hp, ihE _ _ _ hpe⟩
          · rw [if_neg hc] at h
            by_cases hb : c = ']'
            · rw [if_pos hb] at h
              simp only [Option.some.injEq, Prod.mk.injEq] at h
              rw [← h.1]
              simp only [noDupJList, Bool.and_eq_true]
              exact ⟨ihV _ _ _ hp, trivial⟩
            · rw [if_neg hb] at h
              exact Option.noConfusion h
    · intro s ms r h
      simp only [parseMembers] at h
      cases hs : skipWs s with
      | nil =>
        simp only [hs] at h
        exact Option.noConfusion h
      | cons c r0 =>
        simp only [hs] at h
        by_cases hq : c = '\"'
        · rw [if_pos hq] at h
          cases hsb : parseStrBody fuel r0 with
          | none =>
            simp only [hsb] at h
            exact Option.noConfusion h
          | some p =>
            obtain ⟨k, r1⟩ := p
            simp only [hsb] at h
            cases hs1 : skipWs r1 with
            | nil =>
              simp only [hs1] at h
              exact Option.noConfusion h
            | cons c2 r2 =>
              simp only [hs1] at h
              by_cases hcol : c2 = ':'
              · rw [if_pos hcol] at h
                cases hpv : parseVal fuel r2 with
                | none =>
                  simp only [hpv] at h
                  exact Option.noConfusion h
                | some p2 =>
                  obtain ⟨v, r3⟩ := p2
                  simp only [hpv] at h
                  cases hs3 : skipWs r3 with
                  | nil =>
                    simp only [hs3] at h
                    exact Option.noConfusion h
                  | cons c3 r4 =>
                    simp only [hs3] at h
                    by_cases hcm : c3 = ','
                    · rw [if_pos hcm] at h
                      rcases Option.map_eq_some'.mp h with ⟨⟨ms2, r5⟩, hpm, heq⟩
                      injection heq with hm hr
                      rw [← hm]
                      simp only [noDupJMembers, Bool.and_eq_true]
                      exact ⟨ihV _ _ _ hpv, ihM _ _ _ hpm⟩
                    · rw [if_neg hcm] at h
                      by_cases hbr : c3 = rbrace
                      · rw [if_pos hbr] at h
                        simp only [Option.some.injEq, Prod.mk.injEq] at h
                        rw [← h.1]
                        simp only [noDupJMembers, Bool.and_eq_true]
                        exact ⟨ihV _ _ _ hpv, trivial⟩
                      · rw [if_neg hbr] at h
                        exact Option.noConfusion h
              · rw [if_neg hcol] at h
                exact Option.noConfusion h
        · rw [if_neg hq] at h
          exact Option.noConfusion h

/-- json.loads only produces values whose objects have duplicate-free keys:
Python dicts cannot hold a key twice. -/
theorem loads_noDupJ (s : List Char) (v : JVal) (h : loads s = some v) :
    noDupJ v = true := by
  unfold loads at h
  cases hp : parseVal (s.length + 1) s with
  | none =>
    simp only [hp] at h
    exact Option.noConfusion h
  | some p =>
    obtain ⟨w, r⟩ := p
    simp only [hp] at h
    by_cases hw : skipWs r = []
    · rw [if_pos hw] at h
      cases h
      exact (parse_noDup (s.length + 1)).1 s _ _ hp
    · rw [if_neg hw] at h
      exact Option.noConfusion h

/-- Every response the server constructs from a decoded id (and method)
inherits duplicate-free keys: the fixtures are closed duplicate-free values
and the response wrappers use pairwise distinct keys. -/
theorem noDupJ_responses (i : JVal) (hi : noDupJ i = true) :
    noDupJ (initResponse i) = true ∧ noDupJ (shutdownResponse i) = true
    ∧ noDupJ (sourcesResponse i) = true
    ∧ ∀ m, noDupJ (errorResponse i m) = true := by
  refine ⟨?_, ?_, ?_, fun m => ?_⟩ <;>
    simp [initResponse, shutdownResponse, sourcesResponse, errorResponse,
      initResult, sourcesResult, targetItemA, targetItemB, noDupJ, noDupJList,
      noDupJMembers, nodupKeys, hi]

/-! ## The claims -/

/-- C1: for every received frame whose body decodes to an envelope whose
method matches none of the recognized methods: if the envelope contains an
id, the server writes exactly one error response frame (errorResponse, the
response dict with code 123 and message "unhandled method " followed by the
method name) carrying that id, and then continues reading further frames;
if the envelope contains no id, nothing is written and the loop continues. -/
theorem claim1_unhandled_method (n : Nat) (body rest : List Char)
    (fields : List (String × JVal)) (m : String)
    (hcr : noCR body = true) (hlen : body.length = n)
    (hloads : loads body = some (.obj fields))
    (hm : dictGet fields "method" = some (.str m))
    (hnot : m ∉ (["build/initialize", "build/initialized", "build/shutdown",
        "build/exit", "buildTarget/sources"] : List String)) :
    (∀ i, dictGet fields "id" = some i →
        step (mkHeader n ++ (body ++ rest)) = .next (wireFrame (errorResponse i m)) rest
          ∧ ∀ fuel, run (fuel + 1) (mkHeader n ++ (body ++ rest))
              = ⟨wireFrame (errorResponse i m) ++ (run fuel rest).out,
                 (run fuel rest).leftover, (run fuel rest).outcome⟩)
    ∧ (dictGet fields "id" = none →
        step (mkHeader n ++ (body ++ rest)) = .next [] rest
          ∧ ∀ fuel, run (fuel + 1) (mkHeader n ++ (body ++ rest))
              = ⟨(run fuel rest).out, (run fuel rest).leftover,
                 (run fuel rest).outcome⟩) := by
  have hstep := step_mkFrame_obj n body rest fields hcr hlen hloads
  have hdisp := dispatch_unrecognized fields m hm hnot
  constructor
  · intro i hid
    rw [hid] at hdisp
    rw [hdisp] at hstep
    have hstep2 : step (mkHeader n ++ (body ++ rest))
        = .next (wireFrame (errorResponse i m)) rest := hstep
    exact ⟨hstep2, fun fuel => run_succ_next fuel _ _ _ hstep2⟩
  · intro hid
    rw [hid] at hdisp
    rw [hdisp] at hstep
    have hstep2 : step (mkHeader n ++ (body ++ rest)) = .next [] rest := hstep
    refine ⟨hstep2, fun fuel => ?_⟩
    have h3 := run_succ_next fuel _ _ _ hstep2
    simpa using h3

/-- C1 witness: the foo/bar request with id 9 is answered by exactly the
code-123 error frame. -/
theorem claim1_witness :
    step (mkHeader 48 ++ (c1body.data ++ []))
      = .next (wireFrame (errorResponse (.num 9) "foo/bar")) [] :=
  ((claim1_unhandled_method 48 c1body.data [] c1fields "foo/bar"
    (by decide) (by decide) (by rfl) (by rfl) (by decide)).1 (.num 9) (by rfl)).1

/-- C2: decoding the exact frame the server encoder produces for a response
value yields that value back and consumes the whole frame.  The round trip
holds for every value whose objects have duplicate-free keys (noDupJ); the
second and third conjuncts close the argument that this covers every
response the server can encode: json.loads only yields noDupJ values, and
each response constructor applied to such a decoded id yields a noDupJ
value. -/
theorem claim2_roundtrip :
    (∀ v, noDupJ v = true → readFrame (wireFrame v) = .frame v [])
    ∧ (∀ s v, loads s = some v → noDupJ v = true)
    ∧ (∀ i, noDupJ i = true →
        noDupJ (initResponse i) = true ∧ noDupJ (shutdownResponse i) = true
        ∧ noDupJ (sourcesResponse i) = true
        ∧ ∀ m, noDupJ (errorResponse i m) = true) :=
  ⟨fun v h => readFrame_wireFrame v h, loads_noDupJ, noDupJ_responses⟩

/-- C2 witness: the shutdown response with id 7 round-trips. -/
theorem claim2_witness :
    readFrame (wireFrame (shutdownResponse (.num 7)))
      = .frame (shutdownResponse (.num 7)) [] :=
  claim2_roundtrip.1 (shutdownResponse (.num 7)) (by rfl)

/-- C3 counterexample: the build/initialized envelope with id 5 is a request
(it carries an id), yet the server writes no frame for it, contradicting the
claim that every request receives exactly one matching response. -/
theorem claim3_counterexample :
    loads c3body.data = some (.obj [("jsonrpc", .str "2.0"), ("id", .num 5),
      ("method", .str "build/initialized")])
    ∧ step c3input.data = .next [] [] :=
  ⟨by rfl, by rfl⟩

/-- C3 amended: every envelope carrying an id receives exactly one response
frame whose id equals the request id, except the methods build/initialized
and build/exit, which receive no response even when an id is present. -/
theorem claim3_request_response (n : Nat) (body rest : List Char)
    (fields : List (String × JVal)) (m : String) (i : JVal)
    (hcr : noCR body = true) (hlen : body.length = n)
    (hloads : loads body = some (.obj fields))
    (hm : dictGet fields "method" = some (.str m))
    (hid : dictGet fields "id" = some i) :
    (m = "build/initialized" → step (mkHeader n ++ (body ++ rest)) = .next [] rest)
    ∧ (m = "build/exit" → step (mkHeader n ++ (body ++ rest)) = .exitLoop rest)
    ∧ (m ≠ "build/initialized" → m ≠ "build/exit" →
        ∃ r, step (mkHeader n ++ (body ++ rest)) = .next (wireFrame r) rest
          ∧ responseId r = some i) := by
  have hstep := step_mkFrame_obj n body rest fields hcr hlen hloads
  refine ⟨?_, ?_, ?_⟩
  · intro hme
    subst hme
    rw [dispatch_initialized fields hm] at hstep
    exact hstep
  · intro hme
    subst hme
    rw [dispatch_exit fields hm] at hstep
    exact hstep
  · intro hne1 hne2
    by_cases e1 : m = "build/initialize"
    · subst e1
      rw [dispatch_initBranch fields hm, hid] at hstep
      exact ⟨initResponse i, hstep, rfl⟩
    by_cases e2 : m = "build/shutdown"
    · subst e2
      rw [dispatch_shutdown fields hm, hid] at hstep
      exact ⟨shutdownResponse i, hstep, rfl⟩
    by_cases e3 : m = "buildTarget/sources"
    · subst e3
      rw [dispatch_sources fields hm, hid] at hstep
      exact ⟨sourcesResponse i, hstep, rfl⟩
    have hnot : m ∉ (["build/initialize", "build/initialized", "build/shutdown",
        "build/exit", "buildTarget/sources"] : List String) := by
      simp [e1, hne1, e2, hne2, e3]
    rw [dispatch_unrecognized fields m hm hnot, hid] at hstep
    exact ⟨errorResponse i m, hstep, rfl⟩

/-- C3 witness: the shutdown request with id 7 gets exactly one response
carrying id 7. -/
theorem claim3_witness :
    ∃ r, step (mkHeader c3wbody.data.length ++ (c3wbody.data ++ []))
        = .next (wireFrame r) [] ∧ responseId r = some (.num 7) :=
  (claim3_request_response c3wbody.data.length c3wbody.data []
    [("jsonrpc", .str "2.0"), ("id", .num 7), ("method", .str "build/shutdown")]
    "build/shutdown" (.num 7)
    (by decide) rfl (by rfl) (by rfl) (by rfl)).2.2 (by decide) (by decide)

/-- C4 counterexample: an envelope without an id whose method is
build/initialize is not treated as a notification: the unconditional id
access raises, and the step is fatal, contradicting the claim that it is
processed without any fatal error. -/
theorem claim4_counterexample :
    loads c4body.data = some (.obj [("jsonrpc", .str "2.0"),
      ("method", .str "build/initialize")])
    ∧ step c4input.data = .fatal :=
  ⟨by rfl, by rfl⟩

/-- C4 amended: the presence of the id field decides request-versus-
notification only in the unrecognized-method branch.  build/initialize,
build/shutdown and buildTarget/sources read the id unconditionally, so an
envelope without an id is a fatal KeyError there; build/initialized and
build/exit never consult the id. -/
theorem claim4_dispatch_id (fields : List (String × JVal)) :
    (∀ m, dictGet fields "method" = some (.str m) →
        m ∈ (["build/initialize", "build/shutdown",
          "buildTarget/sources"] : List String) →
        dictGet fields "id" = none → dispatch fields = .fatal)
    ∧ (dictGet fields "method" = some (.str "build/initialized") →
        dispatch fields = .silent)
    ∧ (dictGet fields "method" = some (.str "build/exit") →
        dispatch fields = .exitLoop)
    ∧ (∀ m, dictGet fields "method" = some (.str m) →
        m ∉ (["build/initialize", "build/initialized", "build/shutdown",
          "build/exit", "buildTarget/sources"] : List String) →
        (dictGet fields "id" = none → dispatch fields = .silent)
        ∧ (∀ i, dictGet fields "id" = some i →
            dispatch fields = .reply (errorResponse i m))) := by
  refine ⟨?_, ?_, ?_, ?_⟩
  · intro m hm hmem hid
    simp only [List.mem_cons, List.not_mem_nil, or_false] at hmem
    rcases hmem with e | e | e
    · subst e
      rw [dispatch_initBranch fields hm, hid]
    · subst e
      rw [dispatch_shutdown fields hm, hid]
    · subst e
      rw [dispatch_sources fields hm, hid]
  · intro hm
    exact dispatch_initialized fields hm
  · intro hm
    exact dispatch_exit fields hm
  · intro m hm hnot
    have hd := dispatch_unrecognized fields m hm hnot
    constructor
    · intro hid
      rw [hd, hid]
    · intro i hid
      rw [hd, hid]

/-- C4 witness: the id-less build/initialize dict dispatches fatally. -/
theorem claim4_witness :
    dispatch [("jsonrpc", .str "2.0"), ("method", .str "build/initialize")]
      = .fatal :=
  (claim4_dispatch_id _).1 "build/initialize" (by rfl) (by decide) (by rfl)

/-- C5: a frame whose decoded envelope has no id never causes a frame to be
written for it: the step is either silent (empty output), loop exit, or a
fatal abort, never a response write. -/
theorem claim5_notification_no_write (n : Nat) (body rest : List Char)
    (fields : List (String × JVal))
    (hcr : noCR body = true) (hlen : body.length = n)
    (hloads : loads body = some (.obj fields))
    (hid : dictGet fields "id" = none) :
    step (mkHeader n ++ (body ++ rest)) = .next [] rest
    ∨ step (mkHeader n ++ (body ++ rest)) = .exitLoop rest
    ∨ step (mkHeader n ++ (body ++ rest)) = .fatal := by
  have hstep := step_mkFrame_obj n body rest fields hcr hlen hloads
  rcases dispatch_no_id fields hid with h | h | h
  · left
    rw [h] at hstep
    exact hstep
  · right; left
    rw [h] at hstep
    exact hstep
  · right; right
    rw [h] at hstep
    exact hstep

/-- C5 witness: the unrecognized notification writes nothing. -/
theorem claim5_witness :
    step (mkHeader 15 ++ (c5body.data ++ [])) = .next [] []
    ∨ step (mkHeader 15 ++ (c5body.data ++ [])) = .exitLoop []
    ∨ step (mkHeader 15 ++ (c5body.data ++ [])) = .fatal :=
  claim5_notification_no_write 15 c5body.data [] [("method", .str "x")]
    (by decide) (by decide) (by rfl) (by rfl)

/-- C6: every frame the server writes declares a Content-Length equal to the
exact UTF-8 byte length of the body that follows it: the serialized text is
printable ASCII, so the character count len(responseStr) that the code puts
in the header coincides with the UTF-8 byte count, and the frame is exactly
the header followed by the body, nothing dropped or padded. -/
theorem claim6_content_length (r : JVal) :
    wireFrame r = "Content-Length: ".data ++ natToDigits (utf8Len (dumpChars r))
      ++ [crChar, lfChar, crChar, lfChar] ++ dumpChars r
    ∧ utf8Len (dumpChars r) = (dumpChars r).length := by
  have h := utf8Len_eq_length (dumpChars r) (dumpChars_printable r)
  refine ⟨?_, h⟩
  unfold wireFrame mkHeader
  rw [h]

/-- C6 witness: the byte count and character count coincide for a concrete
response. -/
theorem claim6_witness :
    utf8Len (dumpChars (shutdownResponse (.num 3)))
      = (dumpChars (shutdownResponse (.num 3))).length :=
  (claim6_content_length (shutdownResponse (.num 3))).2

/-- C7 counterexample: a header declaring Content-Length -1 is not fatal:
int() parses the negative remainder, the body read consumes the rest of the
stream, and the run finishes cleanly, contradicting the claim that a
negative value is fatal. -/
theorem claim7_counterexample :
    pyInt ('-' :: '1' :: [lfChar]) = some (-1)
    ∧ run 2 c7input.data = ⟨[], [], .finished⟩ :=
  ⟨by rfl, by rfl⟩

/-- C7 amended: a non-empty header line not starting with the literal
Content-Length tag is fatal (the assert), and a remainder that int() cannot
parse is fatal; but int() accepts an optional sign, so a negative declared
length is not rejected: it parses, and the body read then consumes the whole
remaining stream. -/
theorem claim7_header_validation :
    (∀ input line r1, readline input = (line, r1) → line.length ≠ 0 →
        listStartsWith "Content-Length:".data line = false →
        step input = .fatal)
    ∧ (∀ input line r1, readline input = (line, r1) → line.length ≠ 0 →
        listStartsWith "Content-Length:".data line = true →
        pyInt (line.drop 15) = none →
        step input = .fatal)
    ∧ (∀ (k : Nat) (cs : List Char),
        pyInt ('-' :: natToDigits (k + 1)) = some (-(k + 1 : Int))
        ∧ pyRead (-(k + 1 : Int)) cs = (treadAll cs, [])) := by
  refine ⟨?_, ?_, ?_⟩
  · intro input line r1 hrl hne hsw
    simp [step, readFrame, hrl, hne, hsw]
  · intro input line r1 hrl hne hsw hint
    simp [step, readFrame, hrl, hne, hsw, hint]
  · intro k cs
    refine ⟨pyInt_neg_digits k, ?_⟩
    unfold pyRead
    rw [if_pos (by omega)]

/-- C7 witness: a garbage header line aborts, and a negative count reads the
whole stream. -/
theorem claim7_witness :
    step ("Hello\n".data) = .fatal
    ∧ pyRead (-(0 + 1 : Int)) ("ab".data) = (treadAll "ab".data, []) :=
  ⟨(claim7_header_validation).1 "Hello\n".data "Hello\n".data [] (by rfl)
      (by decide) (by decide),
   ((claim7_header_validation).2.2 0 "ab".data).2⟩

/-- C8 counterexample: the body read counts characters of the text stream,
not bytes: with the declared length 11 equal to the UTF-8 byte count of the
10-character body, the read consumes 11 characters, which is 12 bytes,
swallowing the first byte after the body, contradicting the claim that the
server reads exactly N bytes. -/
theorem claim8_counterexample :
    utf8Len c8body.data = 11
    ∧ c8body.data.length = 10
    ∧ pyRead (11 : Int) (c8body.data ++ ['X']) = (c8body.data ++ ['X'], [])
    ∧ utf8Len (c8body.data ++ ['X']) = 12 :=
  ⟨by rfl, by rfl, by rfl, by rfl⟩

/-- C8 amended: after the header and the discarded separator line the server
reads exactly N characters from the newline-translated text stream (this
equals N bytes exactly when the body is ASCII), and a json parse failure of
the body is fatal. -/
theorem claim8_body_read (n : Nat) (body rest : List Char)
    (hcr : noCR body = true) (hlen : body.length = n) :
    tread n (body ++ rest) = (body, rest)
    ∧ (loads body = none → step (mkHeader n ++ (body ++ rest)) = .fatal)
    ∧ ((∀ c ∈ body, c.toNat < 128) → utf8Len body = n) := by
  refine ⟨?_, ?_, ?_⟩
  · subst hlen
    exact tread_append body hcr rest
  · intro hl
    rw [step_mkFrame n body rest hcr hlen, hl]
  · intro hascii
    rw [utf8Len_ascii body hascii, hlen]

/-- C8 witness: an unparsable 4-character body is read whole and is fatal. -/
theorem claim8_witness :
    tread 4 ("nope".data ++ []) = ("nope".data, [])
    ∧ step (mkHeader 4 ++ ("nope".data ++ [])) = .fatal := by
  have h := claim8_body_read 4 "nope".data [] (by decide) (by decide)
  exact ⟨h.1, h.2.1 (by rfl)⟩

/-- C9: upon an envelope with method build/exit the loop terminates
immediately: the step exits, the run writes no bytes for it, and the
remaining buffered input is left unread. -/
theorem claim9_exit_terminates (n : Nat) (body rest : List Char)
    (fields : List (String × JVal))
    (hcr : noCR body = true) (hlen : body.length = n)
    (hloads : loads body = some (.obj fields))
    (hm : dictGet fields "method" = some (.str "build/exit")) :
    step (mkHeader n ++ (body ++ rest)) = .exitLoop rest
    ∧ ∀ fuel, run (fuel + 1) (mkHeader n ++ (body ++ rest))
        = ⟨[], rest, .finished⟩ := by
  have hstep := step_mkFrame_obj n body rest fields hcr hlen hloads
  rw [dispatch_exit fields hm] at hstep
  have hstep2 : step (mkHeader n ++ (body ++ rest)) = .exitLoop rest := hstep
  exact ⟨hstep2, fun fuel => run_succ_exit fuel _ rest hstep2⟩

/-- C9 witness: build/exit with buffered MORE terminates, writing nothing and
leaving MORE unread. -/
theorem claim9_witness :
    step (mkHeader 42 ++ (c9body.data ++ "MORE".data)) = .exitLoop "MORE".data
    ∧ run 5 (mkHeader 42 ++ (c9body.data ++ "MORE".data))
        = ⟨[], "MORE".data, .finished⟩ := by
  have h := claim9_exit_terminates 42 c9body.data "MORE".data
    [("jsonrpc", .str "2.0"), ("method", .str "build/exit")]
    (by decide) (by decide) (by rfl) (by rfl)
  exact ⟨h.1, h.2 4⟩

/-- C10: a buildTarget/sources request with an id is answered with
sourcesResponse: its result has exactly two items, and each item has exactly
two source entries, with kind 1 then kind 2 in that order and generated
false everywhere. -/
theorem claim10_sources_shape (fields : List (String × JVal)) (i : JVal)
    (hm : dictGet fields "method" = some (.str "buildTarget/sources"))
    (hid : dictGet fields "id" = some i) :
    dispatch fields = .reply (sourcesResponse i)
    ∧ sourcesResponse i = .obj [("jsonrpc", .str "2.0"), ("id", i),
        ("result", sourcesResult)]
    ∧ sourcesResult = .obj [("items", .arr [targetItemA, targetItemB])]
    ∧ ([targetItemA, targetItemB] : List JVal).length = 2
    ∧ (∀ item ∈ ([targetItemA, targetItemB] : List JVal),
        (sourcesOfItem item).length = 2
        ∧ (sourcesOfItem item).map kindOf = [some (.num 1), some (.num 2)]
        ∧ (sourcesOfItem item).map generatedOf
            = [some (.bool false), some (.bool false)]) := by
  refine ⟨?_, rfl, rfl, rfl, ?_⟩
  · rw [dispatch_sources fields hm, hid]
  · intro item hitem
    rcases List.mem_cons.mp hitem with h | h
    · subst h
      exact ⟨rfl, rfl, rfl⟩
    · have h2 := List.mem_singleton.mp h
      subst h2
      exact ⟨rfl, rfl, rfl⟩

/-- C10 witness: the request dict with id 2 is answered with the fixture. -/
theorem claim10_witness :
    dispatch c10fields = .reply (sourcesResponse (.num 2)) :=
  (claim10_sources_shape c10fields (.num 2) (by rfl) (by rfl)).1

end BuildServer
